import Mathlib

/-!
Verification development for the melaka translation-synchronization core.

The definitions below are shallow embeddings of the TypeScript sources:
  - packages/core/src/utils.ts        (hashContent, detectFieldType, separateContent, mergeGlossaries)
  - packages/core schema-generator    (createFieldSchema, createTranslationSchema, zod object validation)
  - packages/core config helpers      (getEffectiveAIConfig)
  - ai facade / gemini provider       (createProvider, TranslationFacade, GeminiProvider.translate,
                                       extractJsonFromResponse)
  - firestore i18n operations         (readMelakaMetadata, writeTranslation, markTranslationFailed,
                                       isTranslationCurrent)
  - firestore processor               (processTranslation)
  - firestore task queue              (createTaskPayload, enqueueDocumentTranslation)

JavaScript runtime values are modelled by `JsValue` (numbers as integers; floating point
is outside the claims' scope).  External effects (the Firestore store, the Cloud Tasks
transport, the Gemini HTTP endpoint, clocks, `Math.random`) are modelled as explicit
state or as oracle parameters in environment structures.
-/

namespace Melaka

/-- A JavaScript/JSON runtime value.  Objects are association lists in insertion
order, mirroring `Object.entries`; keys of real JS objects are unique. -/
inductive JsValue where
  | null : JsValue
  | bool : Bool → JsValue
  | num : Int → JsValue
  | str : String → JsValue
  | arr : List JsValue → JsValue
  | obj : List (String × JsValue) → JsValue

/-- Property access `fields[key]`: first binding wins (JS objects have unique keys). -/
def lookupField : List (String × JsValue) → String → Option JsValue
  | [], _ => none
  | (k, v) :: rest, key => if k = key then some v else lookupField rest key

/-- `Object.keys` of an association list. -/
def fieldKeys (l : List (String × JsValue)) : List String := l.map Prod.fst

/-- JavaScript truthiness of a value. -/
def jsTruthy : JsValue → Bool
  | .null => false
  | .bool b => b
  | .num n => n ≠ 0
  | .str s => s ≠ ""
  | .arr _ => true
  | .obj _ => true

/-! ## JSON serialization (`JSON.stringify` with an array replacer)

`hashContent` (packages/core/src/utils.ts) computes
`JSON.stringify(content, Object.keys(content).sort())`.  Per ECMA-262, when the
replacer is an array it becomes the `PropertyList`: at EVERY object level only the
listed keys are serialized, in the list's order; arrays are serialized element by
element regardless of the list. -/

/-- Lower-case hexadecimal digit, as produced by `toString(16)`. -/
def hexDigitChar (n : Nat) : Char :=
  match n with
  | 0 => '0' | 1 => '1' | 2 => '2' | 3 => '3' | 4 => '4'
  | 5 => '5' | 6 => '6' | 7 => '7' | 8 => '8' | 9 => '9'
  | 10 => 'a' | 11 => 'b' | 12 => 'c' | 13 => 'd' | 14 => 'e' | 15 => 'f'
  | _ => '0'

/-- `QuoteJSONString` escaping of one character (ECMA-262): quote and backslash are
backslash-escaped, the named control characters use their short escapes, all other
code points below U+0020 use `\u00XX`, everything else is copied verbatim. -/
def escChar (c : Char) : List Char :=
  if c = '"' then ['\\', '"']
  else if c = '\\' then ['\\', '\\']
  else if c = '\x08' then ['\\', 'b']
  else if c = '\x09' then ['\\', 't']
  else if c = '\x0a' then ['\\', 'n']
  else if c = '\x0c' then ['\\', 'f']
  else if c = '\x0d' then ['\\', 'r']
  else if c.toNat < 32 then ['\\', 'u', '0', '0', hexDigitChar (c.toNat / 16), hexDigitChar (c.toNat % 16)]
  else [c]

/-- Escape the body of a JSON string. -/
def escString (s : List Char) : List Char := (s.map escChar).flatten

/-- A JSON string literal: quote, escaped body, quote. -/
def quoteJson (s : List Char) : List Char := '"' :: (escString s ++ ['"'])

/-- `Array.prototype.sort()` on key lists: sorts by the string order.  (JS compares
by UTF-16 code units; this coincides with the scalar-value order for all keys
outside the astral planes.) -/
def sortKeys (l : List String) : List String := List.insertionSort (· ≤ ·) l

/-- Comma-join a list of character fragments. -/
def joinComma : List (List Char) → List Char
  | [] => []
  | [x] => x
  | x :: y :: rest => x ++ ',' :: joinComma (y :: rest)

mutual
/-- `SerializeJSONProperty` with `PropertyList ks`. -/
def serVal (ks : List String) : JsValue → List Char
  | .null => ("null").data
  | .bool true => ("true").data
  | .bool false => ("false").data
  | .num n => (toString n).data
  | .str s => quoteJson s.data
  | .arr elems => '[' :: (joinComma (serElems ks elems) ++ [']'])
  | .obj fields => '\x7b' :: (joinComma (serEntries ks ks fields) ++ ['\x7d'])
termination_by v => (sizeOf v, 0)
decreasing_by all_goals simp_wf <;> omega

/-- Serialized array elements, in order. -/
def serElems (ks : List String) : List JsValue → List (List Char)
  | [] => []
  | v :: rest => serVal ks v :: serElems ks rest
termination_by l => (sizeOf l, 0)
decreasing_by all_goals simp_wf <;> omega

/-- Serialized object entries: iterate the `PropertyList` (`keyIter`), emitting
`"key":value` for each listed key present in the object. -/
def serEntries (ks : List String) (keyIter : List String) (fields : List (String × JsValue)) :
    List (List Char) :=
  match keyIter with
  | [] => []
  | k :: rest =>
    match serFieldLookup ks fields k with
    | some entry => (quoteJson k.data ++ ':' :: entry) :: serEntries ks rest fields
    | none => serEntries ks rest fields
termination_by (sizeOf fields, 1 + keyIter.length)
decreasing_by all_goals simp_wf <;> omega

/-- Look up key `k` and serialize its value. -/
def serFieldLookup (ks : List String) (fields : List (String × JsValue)) (k : String) :
    Option (List Char) :=
  match fields with
  | [] => none
  | (k', v) :: rest => if k' = k then some (serVal ks v) else serFieldLookup ks rest k
termination_by (sizeOf fields, 0)
decreasing_by all_goals simp_wf <;> omega
end

/-- The normalized serialization hashed by `hashContent`:
`JSON.stringify(content, Object.keys(content).sort())`. -/
def normalizedContent (content : List (String × JsValue)) : List Char :=
  serVal (sortKeys (fieldKeys content)) (.obj content)

/-! ### SHA-256 (node `crypto.createHash('sha256')`), over Nat with explicit mod 2^32 -/

def w32 : Nat := 4294967296

def rotr32 (n x : Nat) : Nat := (x / 2 ^ n + (x % 2 ^ n) * 2 ^ (32 - n)) % w32

def shr32 (n x : Nat) : Nat := x / 2 ^ n

def sha256K : List Nat :=
  [1116352408, 1899447441, 3049323471, 3921009573, 961987163, 1508970993,
   2453635748, 2870763221, 3624381080, 310598401, 607225278, 1426881987,
   1925078388, 2162078206, 2614888103, 3248222580, 3835390401, 4022224774,
   264347078, 604807628, 770255983, 1249150122, 1555081692, 1996064986,
   2554220882, 2821834349, 2952996808, 3210313671, 3336571891, 3584528711,
   113926993, 338241895, 666307205, 773529912, 1294757372, 1396182291,
   1695183700, 1986661051, 2177026350, 2456956037, 2730485921, 2820302411,
   3259730800, 3345764771, 3516065817, 3600352804, 4094571909, 275423344,
   430227734, 506948616, 659060556, 883997877, 958139571, 1322822218,
   1537002063, 1747873779, 1955562222, 2024104815, 2227730452, 2361852424,
   2428436474, 2756734187, 3204031479, 3329325298]

def sha256H0 : List Nat :=
  [1779033703, 3144134277, 1013904242, 2773480762,
   1359893119, 2600822924, 528734635, 1541459225]

/-- Big-endian 64-bit length, as 8 bytes. -/
def be64 (n : Nat) : List Nat :=
  [n / 2 ^ 56 % 256, n / 2 ^ 48 % 256, n / 2 ^ 40 % 256, n / 2 ^ 32 % 256,
   n / 2 ^ 24 % 256, n / 2 ^ 16 % 256, n / 2 ^ 8 % 256, n % 256]

/-- SHA-256 padding: append 0x80, zeros to 56 mod 64, then the bit length. -/
def sha256Pad (msg : List Nat) : List Nat :=
  let k := (64 - ((msg.length + 9) % 64)) % 64
  msg ++ 0x80 :: (List.replicate k 0 ++ be64 (msg.length * 8))

/-- Group bytes into big-endian 32-bit words. -/
def bytesToWords : List Nat → List Nat
  | b0 :: b1 :: b2 :: b3 :: rest => (((b0 * 256 + b1) * 256 + b2) * 256 + b3) :: bytesToWords rest
  | _ => []

/-- Split into 64-byte blocks. -/
def sha256Blocks (l : List Nat) : List (List Nat) :=
  if h : l = [] then []
  else (l.take 64) :: sha256Blocks (l.drop 64)
termination_by l.length
decreasing_by
  simp only [List.length_drop]
  cases l with
  | nil => exact absurd rfl h
  | cons a t => simp; omega

def smallSigma0 (x : Nat) : Nat := (rotr32 7 x) ^^^ (rotr32 18 x) ^^^ (shr32 3 x)
def smallSigma1 (x : Nat) : Nat := (rotr32 17 x) ^^^ (rotr32 19 x) ^^^ (shr32 10 x)
def bigSigma0 (x : Nat) : Nat := (rotr32 2 x) ^^^ (rotr32 13 x) ^^^ (rotr32 22 x)
def bigSigma1 (x : Nat) : Nat := (rotr32 6 x) ^^^ (rotr32 11 x) ^^^ (rotr32 25 x)
def chFn (x y z : Nat) : Nat := (x &&& y) ^^^ ((w32 - 1 - x % w32) &&& z)
def majFn (x y z : Nat) : Nat := (x &&& y) ^^^ (x &&& z) ^^^ (y &&& z)

/-- Message schedule: extend 16 words to 64. -/
def sha256Schedule (w : List Nat) : List Nat :=
  (List.range 48).foldl
    (fun acc _ =>
      let n := acc.length
      let next := (smallSigma1 (acc.getD (n - 2) 0) + acc.getD (n - 7) 0 +
                   smallSigma0 (acc.getD (n - 15) 0) + acc.getD (n - 16) 0) % w32
      acc ++ [next])
    w

/-- One round of the compression function on the 8-tuple of working variables. -/
def sha256Round (st : List Nat) (kw : Nat × Nat) : List Nat :=
  match st with
  | [a, b, c, d, e, f, g, h] =>
    let t1 := (h + bigSigma1 e + chFn e f g + kw.1 + kw.2) % w32
    let t2 := (bigSigma0 a + majFn a b c) % w32
    [(t1 + t2) % w32, a, b, c, (d + t1) % w32, e, f, g]
  | other => other

/-- Compress one 64-byte block into the running hash state. -/
def sha256Compress (h : List Nat) (block : List Nat) : List Nat :=
  let w := sha256Schedule (bytesToWords block)
  let st := (sha256K.zip w).foldl sha256Round h
  (h.zip st).map fun p => (p.1 + p.2) % w32

/-- Hex rendering of one 32-bit word (8 lower-case hex digits). -/
def wordToHex (n : Nat) : List Char :=
  [hexDigitChar (n / 2 ^ 28 % 16), hexDigitChar (n / 2 ^ 24 % 16),
   hexDigitChar (n / 2 ^ 20 % 16), hexDigitChar (n / 2 ^ 16 % 16),
   hexDigitChar (n / 2 ^ 12 % 16), hexDigitChar (n / 2 ^ 8 % 16),
   hexDigitChar (n / 2 ^ 4 % 16), hexDigitChar (n % 16)]

/-- SHA-256 of a string (UTF-8 encoded), hex digest — `createHash('sha256').update(s).digest('hex')`. -/
def sha256Hex (s : String) : String :=
  let bytes := s.toUTF8.toList.map UInt8.toNat
  let final := (sha256Blocks (sha256Pad bytes)).foldl sha256Compress sha256H0
  String.mk (final.map wordToHex).flatten

/-- `hashContent` (packages/core/src/utils.ts):
`JSON.stringify(content, Object.keys(content).sort())`, then SHA-256 hex. -/
def hashContent (content : List (String × JsValue)) : String :=
  sha256Hex (String.mk (normalizedContent content))

/-! ## Field type detection and content separation (packages/core/src/utils.ts) -/

/-- The `SchemaType` union of packages/core/src/types.ts. -/
inductive SchemaType where
  | string | stringArray | number | numberArray | boolean
  | object | objectArray | objectOrNull | docRef | docRefArray
deriving DecidableEq

/-- `isDocumentReference`: a non-null object with a string `path` property and an
`id` property.  (`'path' in value` is false for arrays and primitives.) -/
def isDocumentReference : JsValue → Bool
  | .obj fields =>
    (match lookupField fields "path" with
     | some (.str _) => true
     | _ => false) && (lookupField fields "id").isSome
  | _ => false

/-- `isTimestamp`: an object with `_seconds` and `_nanoseconds` properties. -/
def isTimestamp : JsValue → Bool
  | .obj fields => (lookupField fields "_seconds").isSome && (lookupField fields "_nanoseconds").isSome
  | _ => false

/-- `isGeoPoint`: an object with `latitude` and `longitude` properties. -/
def isGeoPoint : JsValue → Bool
  | .obj fields => (lookupField fields "latitude").isSome && (lookupField fields "longitude").isSome
  | _ => false

/-- `detectFieldType` (packages/core/src/utils.ts): total, pure classification. -/
def detectFieldType (value : JsValue) : SchemaType :=
  match value with
  | .null => .objectOrNull
  | .arr elems =>
    match elems with
    | [] => .stringArray
    | firstItem :: _ =>
      if isDocumentReference firstItem then .docRefArray
      else
        match firstItem with
        | .str _ => .stringArray
        | .num _ => .numberArray
        | .obj _ => .objectArray
        | .arr _ => .objectArray
        | _ => .stringArray
  | v =>
    if isDocumentReference v then .docRef
    else if isTimestamp v then .object
    else if isGeoPoint v then .object
    else
      match v with
      | .str _ => .string
      | .num _ => .number
      | .bool _ => .boolean
      | _ => .object

/-- `isTranslatableType`: only strings and string arrays are translatable. -/
def isTranslatableType (schemaType : SchemaType) : Bool :=
  schemaType = SchemaType.string || schemaType = SchemaType.stringArray

/-- `SeparatedContent` (packages/core/src/types.ts). -/
structure SeparatedContent where
  translatable : List (String × JsValue)
  nonTranslatable : List (String × JsValue)
  detectedTypes : List (String × SchemaType)

/-- `separateContent` (packages/core/src/utils.ts): iterate `Object.entries(doc)`;
skip the reserved `_melaka` field; if a `fields` list is given, any field not in it
goes to `nonTranslatable` unclassified; otherwise classify and route by
`isTranslatableType`. -/
def separateContent (doc : List (String × JsValue)) (fields : Option (List String)) :
    SeparatedContent :=
  match doc with
  | [] => ⟨[], [], []⟩
  | (field, value) :: rest =>
    let r := separateContent rest fields
    if field = "_melaka" then r
    else if (match fields with | some fs => ¬ (fs.contains field) | none => false : Bool) then
      { r with nonTranslatable := (field, value) :: r.nonTranslatable }
    else
      let schemaType := detectFieldType value
      let r' := { r with detectedTypes := (field, schemaType) :: r.detectedTypes }
      if isTranslatableType schemaType then
        { r' with translatable := (field, value) :: r'.translatable }
      else
        { r' with nonTranslatable := (field, value) :: r'.nonTranslatable }

/-- `mergeGlossaries`: collection glossary entries override shared ones key by key
(`\x7b...shared, ...collection\x7d`).  Modelled as an association list in which a
collection binding shadows a shared binding with the same key. -/
def mergeGlossaries (shared collection : Option (List (String × String))) :
    List (String × String) :=
  let sh := shared.getD []
  let co := collection.getD []
  sh.filter (fun p => ¬ (co.map Prod.fst).contains p.1) ++ co

/-! ## Schema generation (packages/core schema-generator) and zod validation -/

/-- The zod validator shapes produced by `createFieldSchema`. -/
inductive BaseSchema where
  | str           -- z.string()
  | strArr        -- z.array(z.string())
  | num           -- z.number()
  | numArr        -- z.array(z.number())
  | boolS         -- z.boolean()
  | recordS       -- z.record(z.unknown())
  | recordArr     -- z.array(z.record(z.unknown()))
  | recordNullable -- z.record(z.unknown()).nullable()
  | docRefObj     -- z.object(\x7bpath: z.string(), id: z.string()\x7d).passthrough()
  | docRefArr     -- array of the former
deriving DecidableEq

/-- A field validator: base schema, possibly wrapped in `.optional()`. -/
structure FieldSchema where
  base : BaseSchema
  required : Bool
deriving DecidableEq

/-- `createFieldSchema` (schema-generator): map a `SchemaType` to its zod validator. -/
def createFieldSchema (schemaType : SchemaType) (required : Bool) : FieldSchema :=
  let base : BaseSchema :=
    match schemaType with
    | .string => .str
    | .stringArray => .strArr
    | .number => .num
    | .numberArray => .numArr
    | .boolean => .boolS
    | .object => .recordS
    | .objectArray => .recordArr
    | .objectOrNull => .recordNullable
    | .docRef => .docRefObj
    | .docRefArray => .docRefArr
  ⟨base, required⟩

/-- A translation output schema: `z.object(shape)` with default (strip) unknown-key
handling. -/
def TranslationSchema := List (String × FieldSchema)

/-- `createTranslationSchema`: one required field validator per translatable field,
typed by the detected type (defaulting to string). -/
def createTranslationSchema (translatable : List (String × JsValue))
    (detectedTypes : List (String × SchemaType)) : TranslationSchema :=
  translatable.map fun p =>
    (p.1, createFieldSchema (((lookupField' detectedTypes p.1).getD .string)) true)
where
  /-- association-list lookup reused for the `detectedTypes` map -/
  lookupField' : List (String × SchemaType) → String → Option SchemaType
    | [], _ => none
    | (k, v) :: rest, key => if k = key then some v else lookupField' rest key

/-- zod validation of one base schema against a value (zod v3 semantics; no coercion). -/
def validateBase : BaseSchema → JsValue → Bool
  | .str, .str _ => true
  | .str, _ => false
  | .strArr, .arr elems => elems.all fun v => match v with | .str _ => true | _ => false
  | .strArr, _ => false
  | .num, .num _ => true
  | .num, _ => false
  | .numArr, .arr elems => elems.all fun v => match v with | .num _ => true | _ => false
  | .numArr, _ => false
  | .boolS, .bool _ => true
  | .boolS, _ => false
  | .recordS, .obj _ => true
  | .recordS, _ => false
  | .recordArr, .arr elems => elems.all fun v => match v with | .obj _ => true | _ => false
  | .recordArr, _ => false
  | .recordNullable, .null => true
  | .recordNullable, .obj _ => true
  | .recordNullable, _ => false
  | .docRefObj, v => isDocRefShape v
  | .docRefArr, .arr elems => elems.all isDocRefShape
  | .docRefArr, _ => false
where
  isDocRefShape : JsValue → Bool
  | .obj fields =>
    (match lookupField fields "path" with | some (.str _) => true | _ => false) &&
    (match lookupField fields "id" with | some (.str _) => true | _ => false)
  | _ => false

/-- `z.object(shape).safeParse(data)` with zod's DEFAULT unknown-key policy:
unrecognized keys are STRIPPED (not rejected); a missing required field or a
mistyped field fails; the parsed output contains exactly the shape's keys that
were present and valid. -/
def zodSafeParseObject (shape : TranslationSchema) (data : JsValue) :
    Option (List (String × JsValue)) :=
  match data with
  | .obj fields => parseShape shape fields
  | _ => none
where
  parseShape : List (String × FieldSchema) → List (String × JsValue) →
      Option (List (String × JsValue))
  | [], _ => some []
  | (k, fs) :: rest, fields =>
    match lookupField fields k with
    | some v =>
      if validateBase fs.base v then
        (parseShape rest fields).map fun tail => (k, v) :: tail
      else none
    | none =>
      if fs.required then none
      else parseShape rest fields

/-! ## Record store (firestore i18n operations) -/

/-- Translation status (packages/core). -/
inductive TranslationStatus where
  | pending | completed | failed
deriving DecidableEq, Repr

/-- `MelakaMetadata`.  Timestamps are modelled as naturals. -/
structure MelakaMetadata where
  source_hash : String
  translated_at : Nat
  model : String
  status : TranslationStatus
  reviewed : Bool
  error : Option String := none
deriving DecidableEq, Repr

/-- A persisted i18n record for one locale: translated fields, copied fields, and
the `_melaka` metadata (absent if the document was written without it). -/
structure I18nDoc where
  translated : List (String × JsValue)
  nonTranslatable : List (String × JsValue)
  melaka : Option MelakaMetadata

/-- The i18n subcollection of one parent document: locale → record. -/
def I18nStore := List (String × I18nDoc)

/-- `readTranslation`: record for the locale, or `null`. -/
def readTranslation (store : I18nStore) (locale : String) : Option I18nDoc :=
  match store with
  | [] => none
  | (l, d) :: rest => if l = locale then some d else readTranslation rest locale

/-- Replace-or-insert the record for a locale (`set` semantics). -/
def storeSet (store : I18nStore) (locale : String) (d : I18nDoc) : I18nStore :=
  match store with
  | [] => [(locale, d)]
  | (l, d') :: rest =>
    if l = locale then (l, d) :: rest else (l, d') :: storeSet rest locale d

/-- `readMelakaMetadata`: the `_melaka` metadata of the record, or `null` when the
record or its metadata is absent. -/
def readMelakaMetadata (store : I18nStore) (locale : String) : Option MelakaMetadata :=
  match readTranslation store locale with
  | none => none
  | some d => d.melaka

/-- `writeTranslation`: full `set` (replace) of the record
`\x7b...translated, ...nonTranslatable, _melaka: metadata\x7d`. -/
def writeTranslation (store : I18nStore) (locale : String)
    (translated nonTranslatable : List (String × JsValue)) (metadata : MelakaMetadata) :
    I18nStore :=
  storeSet store locale ⟨translated, nonTranslatable, some metadata⟩

/-- `markTranslationFailed`: if a record exists, metadata-only update of
`_melaka.status/error/translated_at` (a dotted-path update creates the metadata map
when absent; fields never written are modelled as empty strings / defaults);
otherwise create the minimal failed record with empty hash and model. -/
def markTranslationFailed (store : I18nStore) (locale : String) (error : String)
    (timestamp : Nat) : I18nStore :=
  match readTranslation store locale with
  | some d =>
    let m0 := d.melaka.getD ⟨"", timestamp, "", .pending, false, none⟩
    storeSet store locale
      { d with melaka := some { m0 with status := .failed, error := some error, translated_at := timestamp } }
  | none =>
    storeSet store locale ⟨[], [], some ⟨"", timestamp, "", .failed, false, some error⟩⟩

/-- `isTranslationCurrent`: metadata exists, `status === 'completed'`, and
`source_hash === sourceHash`. -/
def isTranslationCurrent (store : I18nStore) (locale : String) (sourceHash : String) : Bool :=
  match readMelakaMetadata store locale with
  | none => false
  | some metadata =>
    metadata.status = TranslationStatus.completed && metadata.source_hash = sourceHash

/-! ## Configuration (packages/core config helpers) -/

/-- `AIConfig.provider`. -/
inductive AIProviderKind where
  | gemini | openai | claude
deriving DecidableEq, Repr

/-- `AIConfig` (packages/core/src/types.ts).  `temperature` is a JS number; the
claims never depend on its arithmetic, so it is modelled as a rational. -/
structure AIConfig where
  provider : AIProviderKind
  model : String
  temperature : Option Rat := none
  apiKeySecret : Option String := none
  apiKey : Option String := none

/-- A partial AI config (collection-level override, `AIConfigSchema.partial()`). -/
structure AIConfigPartial where
  provider : Option AIProviderKind := none
  model : Option String := none
  temperature : Option Rat := none
  apiKeySecret : Option String := none
  apiKey : Option String := none

/-- `CollectionConfig` (the parts the core pipeline and task queue consume). -/
structure CollectionConfig where
  path : String
  isCollectionGroup : Bool := false
  fields : Option (List String) := none
  prompt : Option String := none
  glossary : Option (List (String × String)) := none
  ai : Option AIConfigPartial := none
  forceUpdate : Option Bool := none

/-- `MelakaConfig` (the parts the core pipeline and task queue consume). -/
structure MelakaConfig where
  languages : List String
  ai : AIConfig
  glossary : Option (List (String × String)) := none

/-- `getEffectiveAIConfig`: spread collection overrides over the root AI config
(`\x7b...rootConfig.ai, ...(collection.ai || \x7b\x7d)\x7d`). -/
def getEffectiveAIConfig (rootConfig : MelakaConfig) (collection : CollectionConfig) :
    AIConfig :=
  match collection.ai with
  | none => rootConfig.ai
  | some p =>
    { provider := p.provider.getD rootConfig.ai.provider
      model := p.model.getD rootConfig.ai.model
      temperature := match p.temperature with
        | some t => some t
        | none => rootConfig.ai.temperature
      apiKeySecret := match p.apiKeySecret with
        | some s => some s
        | none => rootConfig.ai.apiKeySecret
      apiKey := match p.apiKey with
        | some s => some s
        | none => rootConfig.ai.apiKey }

/-! ## AI facade and Gemini provider (packages/ai) -/

/-- `ProviderConfig` (packages/ai/src/types.ts). -/
structure ProviderConfig where
  apiKey : Option String := none
  model : String
  temperature : Option Rat := none

/-- The `GeminiProvider` constructor computes `\x7b temperature: 0.3, ...config \x7d`.
Because `createProvider` always passes an object whose `temperature` key is present
(possibly with value `undefined`), the spread overrides the 0.3 default with the
given (possibly undefined) value, so the constructor is the identity on the config
as modelled here. -/
def geminiInit (config : ProviderConfig) : ProviderConfig := config

/-- A constructed provider.  Only Gemini is implemented in the baseline. -/
inductive AIProvider where
  | gemini (config : ProviderConfig)

/-- `createProvider` (ai facade): `gemini` constructs a provider; `openai` and
`claude` THROW `Error('... not yet implemented. Use Gemini for MVP.')`.  A thrown
constructor is modelled as `Except.error` carrying the error message.  (The
`default` branch `Unknown AI provider` is unreachable: the provider union has
exactly these three members.) -/
def createProvider (aiConfig : AIConfig) : Except String AIProvider :=
  let providerConfig : ProviderConfig :=
    { apiKey := aiConfig.apiKey, model := aiConfig.model, temperature := aiConfig.temperature }
  match aiConfig.provider with
  | .gemini => .ok (.gemini (geminiInit providerConfig))
  | .openai => .error ("OpenAI provider not yet implemented. Use Gemini for MVP.")
  | .claude => .error ("Claude provider not yet implemented. Use Gemini for MVP.")

/-- `createTranslationFacade` / `new TranslationFacade(aiConfig)`: the constructor
calls `createProvider`, so facade creation throws exactly when `createProvider`
throws. -/
def createTranslationFacade (aiConfig : AIConfig) : Except String AIProvider :=
  createProvider aiConfig

/-- `facade.getModel()`. -/
def facadeGetModel : AIProvider → String
  | .gemini config => config.model

/-- `TranslationOptions` (packages/ai/src/types.ts); these flow into the prompt
that is sent to the external endpoint. -/
structure TranslationOptions where
  targetLanguage : String
  prompt : Option String := none
  glossary : List (String × String) := []
  temperature : Option Rat := none

/-- Token usage metrics. -/
structure TokenUsage where
  inputTokens : Int
  outputTokens : Int
  totalTokens : Int
deriving DecidableEq, Repr

/-- `TranslationResponse`: the uniform tagged result of a provider call. -/
structure TranslationResponse where
  success : Bool
  output : Option (List (String × JsValue)) := none
  error : Option String := none
  usage : Option TokenUsage := none
  durationMs : Option Nat := none

/-! ### `extractJsonFromResponse` (packages/ai/src/prompt.ts)

`JSON.parse` is a JS builtin; it is passed in as the `jsonParse` oracle.  The two
regex fallbacks are modelled as the string searches they denote:
`/(三backticks)(?:json)?\s*([\s\S]*?)(三backticks)/` matches iff some fence occurs and a
later fence closes it; the lazy group is the text from the first fence (after an
optional `json` tag and leading whitespace) up to the EARLIEST closing fence.
`/\x7b[\s\S]*\x7d/` takes the substring from the first opening brace to the last
closing brace, provided the latter comes after the former. -/

/-- JS `\s` / `trim` whitespace set (WhiteSpace ∪ LineTerminator). -/
def jsWhitespace (c : Char) : Bool :=
  c = ' ' || c = '\x09' || c = '\x0a' || c = '\x0b' || c = '\x0c' || c = '\x0d' ||
  c = '\xa0' || c.toNat = 0x1680 || (0x2000 ≤ c.toNat && c.toNat ≤ 0x200a) ||
  c.toNat = 0x2028 || c.toNat = 0x2029 || c.toNat = 0x202f || c.toNat = 0x205f ||
  c.toNat = 0x3000 || c.toNat = 0xfeff

/-- `String.prototype.trim()`. -/
def jsTrim (s : List Char) : List Char :=
  ((s.dropWhile jsWhitespace).reverse.dropWhile jsWhitespace).reverse

/-- Index of the first occurrence of `pat` in `s`. -/
def findSub (pat : List Char) : List Char → Option Nat
  | [] => if pat.isPrefixOf [] then some 0 else none
  | c :: t =>
    if pat.isPrefixOf (c :: t) then some 0
    else (findSub pat t).map (· + 1)

/-- A code fence: three backticks. -/
def fence : List Char := List.replicate 3 (Char.ofNat 96)

/-- The markdown-code-block extraction strategy. -/
def fencedBlock (s : List Char) : Option (List Char) :=
  match findSub fence s with
  | none => none
  | some i =>
    let after := s.drop (i + 3)
    let afterTag := if ("json").data.isPrefixOf after then after.drop 4 else after
    let body := afterTag.dropWhile jsWhitespace
    match findSub fence body with
    | none => none
    | some j => some (body.take j)

/-- Index of the last occurrence of character `c` in `s`. -/
def lastIdx (s : List Char) (c : Char) : Option Nat :=
  (s.reverse.findIdx? (· = c)).map (fun k => s.length - 1 - k)

/-- The brace-substring extraction strategy. -/
def braceSub (s : List Char) : Option (List Char) :=
  match s.findIdx? (· = '\x7b'), lastIdx s '\x7d' with
  | some i, some j => if i < j then some ((s.drop i).take (j - i + 1)) else none
  | _, _ => none

/-- `extractJsonFromResponse`: strict parse, then fenced block, then brace
substring; `none` models the final `throw` (caught by the provider's catch). -/
def extractJsonFromResponse (jsonParse : String → Option JsValue) (response : String) :
    Option JsValue :=
  match jsonParse response with
  | some v => some v
  | none =>
    let s := response.data
    let viaFence :=
      match fencedBlock s with
      | some inner => jsonParse (String.mk (jsTrim inner))
      | none => none
    match viaFence with
    | some v => some v
    | none =>
      match braceSub s with
      | some sub => jsonParse (String.mk sub)
      | none => none

/-! ### Plain `JSON.stringify` (no replacer), used for the HTTP error payload -/

mutual
/-- `JSON.stringify(v)` without a replacer: objects serialize all own keys in
insertion order. -/
def serPlain : JsValue → List Char
  | .null => ("null").data
  | .bool true => ("true").data
  | .bool false => ("false").data
  | .num n => (toString n).data
  | .str s => quoteJson s.data
  | .arr elems => '[' :: (joinComma (serPlainElems elems) ++ [']'])
  | .obj fields => '\x7b' :: (joinComma (serPlainEntries fields) ++ ['\x7d'])
termination_by v => sizeOf v
decreasing_by all_goals simp_wf <;> omega

def serPlainElems : List JsValue → List (List Char)
  | [] => []
  | v :: rest => serPlain v :: serPlainElems rest
termination_by l => sizeOf l
decreasing_by all_goals simp_wf <;> omega

def serPlainEntries : List (String × JsValue) → List (List Char)
  | [] => []
  | (k, v) :: rest => (quoteJson k.data ++ ':' :: serPlain v) :: serPlainEntries rest
termination_by l => sizeOf l
decreasing_by all_goals simp_wf <;> omega
end

/-! ### `GeminiProvider.translate` (ai gemini provider) -/

/-- The awaited `fetch` `Response`: HTTP status and the outcome of `.json()`. -/
structure FetchResponse where
  ok : Bool
  status : Nat
  jsonBody : Except String JsValue

/-- Environment for one provider call: the network outcome, the measured duration,
the `JSON.parse` builtin, and the message zod would render for a validation
failure (`error.message` is a zod-library rendering of its issue list and is not
re-implemented here). -/
structure GeminiEnv where
  fetchResult : Except String FetchResponse
  elapsedMs : Nat := 0
  jsonParse : String → Option JsValue
  zodMessage : String := ""

/-- `isConfigured()`: `!!this.config.apiKey`. -/
def geminiIsConfigured (config : ProviderConfig) : Bool :=
  match config.apiKey with
  | some s => s ≠ ""
  | none => false

/-- Optional-chained property access on an object value. -/
def chainField (v : JsValue) (k : String) : Option JsValue :=
  match v with
  | .obj fields => lookupField fields k
  | _ => none

/-- Optional-chained `[0]` on an array value. -/
def chainHead (v : JsValue) : Option JsValue :=
  match v with
  | .arr (x :: _) => some x
  | _ => none

/-- `data.candidates?.[0]?.content?.parts?.[0]?.text`, then the `!textResponse`
falsiness guard.  The Gemini API's `text` part is a string; non-string values are
treated as absent. -/
def geminiTextResponse (data : JsValue) : Option String :=
  match (((((chainField data "candidates").bind chainHead).bind
          (chainField · "content")).bind (chainField · "parts")).bind chainHead).bind
          (chainField · "text") with
  | some (.str s) => if s = "" then none else some s
  | _ => none

/-- `usageMetadata.xxxTokenCount || 0`. -/
def tokenCountOr0 (um : JsValue) (k : String) : Int :=
  match chainField um k with
  | some (.num n) => n
  | _ => 0

/-- `GeminiProvider.translate`: the whole body is wrapped in try/catch, so the call
never throws; every failure path yields the failure variant.  Fidelity notes: the
single `durationMs` sample taken after the fetch is modelled by `env.elapsedMs`
(also used for the catch path), and the early not-configured return carries no
duration, as in the source. -/
def geminiTranslate (env : GeminiEnv) (config : ProviderConfig)
    (_content : List (String × JsValue)) (schema : TranslationSchema)
    (_options : TranslationOptions) : TranslationResponse :=
  if ¬ geminiIsConfigured config then
    { success := false, error := some ("Gemini API key not configured") }
  else
    match env.fetchResult with
    | .error e =>
      { success := false, error := some e, durationMs := some env.elapsedMs }
    | .ok response =>
      if ¬ response.ok then
        let errorData := match response.jsonBody with
          | .ok v => v
          | .error _ => .obj []
        { success := false
          error := some ("Gemini API error: " ++ toString response.status ++ " " ++
                         String.mk (serPlain errorData))
          durationMs := some env.elapsedMs }
      else
        match response.jsonBody with
        | .error e =>
          { success := false, error := some e, durationMs := some env.elapsedMs }
        | .ok data =>
          match geminiTextResponse data with
          | none =>
            { success := false, error := some ("No response from Gemini")
              durationMs := some env.elapsedMs }
          | some textResponse =>
            match extractJsonFromResponse env.jsonParse textResponse with
            | none =>
              { success := false
                error := some ("Failed to extract valid JSON from AI response")
                durationMs := some env.elapsedMs }
            | some parsed =>
              match zodSafeParseObject schema parsed with
              | none =>
                { success := false
                  error := some ("Schema validation failed: " ++ env.zodMessage)
                  durationMs := some env.elapsedMs }
              | some validatedData =>
                let usage := match chainField data "usageMetadata" with
                  | some um =>
                    if jsTruthy um then
                      some ⟨tokenCountOr0 um "promptTokenCount",
                            tokenCountOr0 um "candidatesTokenCount",
                            tokenCountOr0 um "totalTokenCount"⟩
                    else none
                  | none => none
                { success := true, output := some validatedData, usage := usage
                  durationMs := some env.elapsedMs }

/-- `facade.translate` dispatches to the configured provider. -/
def facadeTranslate (env : GeminiEnv) (provider : AIProvider)
    (content : List (String × JsValue)) (schema : TranslationSchema)
    (options : TranslationOptions) : TranslationResponse :=
  match provider with
  | .gemini config => geminiTranslate env config content schema options

/-! ## Processing pipeline (firestore processor, `processTranslation`)

The pipeline's effectful steps are the store operations (which may reject — the
`...Throws` oracle fields inject such rejections), the facade creation (which can
throw, see `createProvider`), and the provider call (which never throws).  The
store is threaded as explicit state together with a log of the operations that
reached it.  `Date.now()` differences are modelled by the single `elapsedMs`
sample; `Timestamp.now()` by `tsNow`. -/

/-- A store operation that reached the record store. -/
inductive StoreOp where
  | readMeta (locale : String)
  | markFailed (locale : String) (error : String) (timestamp : Nat)
  | write (locale : String) (translated nonTranslatable : List (String × JsValue))
      (metadata : MelakaMetadata)

/-- Pipeline state: the i18n store and the operation log. -/
structure PipeState where
  store : I18nStore
  log : List StoreOp

/-- The pipeline monad: state plus JS exceptions (`Except.error` = a thrown/rejected
value that has not yet been caught). -/
def PipeM (α : Type) := PipeState → Except String α × PipeState

instance : Monad PipeM where
  pure a := fun s => (Except.ok a, s)
  bind m k := fun s =>
    match m s with
    | (Except.ok a, s') => k a s'
    | (Except.error e, s') => (Except.error e, s')

/-- `try ... catch (e) ...`. -/
def pTryCatch {α : Type} (m : PipeM α) (handler : String → PipeM α) : PipeM α := fun s =>
  match m s with
  | (Except.ok a, s') => (Except.ok a, s')
  | (Except.error e, s') => handler e s'

/-- Environment of one `processTranslation` invocation. -/
structure PipelineEnv where
  readMetaThrows : Option String := none
  writeThrows : Option String := none
  markFailedThrows : Option String := none
  gemini : GeminiEnv
  elapsedMs : Nat := 0
  tsNow : Nat := 0

/-- `readMelakaMetadata(docRef, targetLanguage)` as a pipeline step. -/
def readMetaOp (env : PipelineEnv) (locale : String) : PipeM (Option MelakaMetadata) :=
  fun s =>
    match env.readMetaThrows with
    | some e => (.error e, s)
    | none => (.ok (readMelakaMetadata s.store locale),
               { s with log := s.log ++ [.readMeta locale] })

/-- `markTranslationFailed(docRef, locale, error, timestamp)` as a pipeline step. -/
def markFailedOp (env : PipelineEnv) (locale error : String) (timestamp : Nat) : PipeM Unit :=
  fun s =>
    match env.markFailedThrows with
    | some e => (.error e, s)
    | none => (.ok (),
               ⟨markTranslationFailed s.store locale error timestamp,
                s.log ++ [.markFailed locale error timestamp]⟩)

/-- `writeTranslation(docRef, locale, translated, nonTranslatable, metadata)`. -/
def writeOp (env : PipelineEnv) (locale : String)
    (translated nonTranslatable : List (String × JsValue)) (metadata : MelakaMetadata) :
    PipeM Unit := fun s =>
  match env.writeThrows with
  | some e => (.error e, s)
  | none => (.ok (),
             ⟨writeTranslation s.store locale translated nonTranslatable metadata,
              s.log ++ [.write locale translated nonTranslatable metadata]⟩)

/-- Lift a possibly-throwing pure computation (`createTranslationFacade`). -/
def liftThrow {α : Type} (r : Except String α) : PipeM α := fun s => (r, s)

/-- `ProcessOptions` (firestore processor). -/
structure ProcessOptions where
  forceUpdate : Bool := false
  timestamp : Option Nat := none

/-- `ProcessResult` (firestore processor). -/
structure ProcessResult where
  success : Bool
  skipped : Bool
  error : Option String := none
  durationMs : Option Nat := none
deriving DecidableEq, Repr

/-- The `try` block of `processTranslation` (steps 1–10); any step may throw. -/
def processTranslationBody (env : PipelineEnv) (docData : List (String × JsValue))
    (targetLanguage : String) (config : MelakaConfig) (collectionConfig : CollectionConfig)
    (options : ProcessOptions) : PipeM ProcessResult := do
  -- 1. separate content
  let sep := separateContent docData collectionConfig.fields
  if sep.translatable.isEmpty then
    pure { success := true, skipped := true, durationMs := some env.elapsedMs }
  else
    -- 2. content hash
    let sourceHash := hashContent sep.translatable
    -- 3. currency check (unless forceUpdate)
    let isCurrent ← do
      if options.forceUpdate then pure false
      else do
        let existingMetadata ← readMetaOp env targetLanguage
        pure (match existingMetadata with
          | some m => m.status = TranslationStatus.completed && m.source_hash = sourceHash
          | none => false)
    if isCurrent then
      pure { success := true, skipped := true, durationMs := some env.elapsedMs }
    else do
      -- 4. schema; 5. effective AI config and facade; 6. glossaries
      let schema := createTranslationSchema sep.translatable sep.detectedTypes
      let aiConfig := getEffectiveAIConfig config collectionConfig
      let facade ← liftThrow (createTranslationFacade aiConfig)
      let glossary := mergeGlossaries config.glossary collectionConfig.glossary
      -- 7. provider call (never throws)
      let response := facadeTranslate env.gemini facade sep.translatable schema
        { targetLanguage := targetLanguage, prompt := collectionConfig.prompt,
          glossary := glossary, temperature := aiConfig.temperature }
      -- 8. handle the result
      let timestamp := options.timestamp.getD env.tsNow
      match response.output, response.success with
      | some output, true => do
        -- 9. metadata; 10. full-replace write
        let metadata : MelakaMetadata :=
          { source_hash := sourceHash, translated_at := timestamp,
            model := facadeGetModel facade, status := .completed, reviewed := false }
        writeOp env targetLanguage output sep.nonTranslatable metadata
        pure { success := true, skipped := false, durationMs := some env.elapsedMs }
      | _, _ => do
        markFailedOp env targetLanguage (response.error.getD ("Unknown translation error"))
          timestamp
        pure { success := false, skipped := false, error := response.error,
               durationMs := some env.elapsedMs }

/-- `processTranslation`: the body wrapped in the boundary try/catch.  The handler
computes the timestamp, attempts a best-effort failed-mark (ignoring its own
errors), and returns the tagged failure result. -/
def processTranslation (env : PipelineEnv) (docData : List (String × JsValue))
    (targetLanguage : String) (config : MelakaConfig) (collectionConfig : CollectionConfig)
    (options : ProcessOptions) : PipeM ProcessResult :=
  pTryCatch (processTranslationBody env docData targetLanguage config collectionConfig options)
    (fun errorMessage => do
      let timestamp := options.timestamp.getD env.tsNow
      pTryCatch (markFailedOp env targetLanguage errorMessage timestamp)
        (fun _ => pure ())
      pure { success := false, skipped := false, error := some errorMessage,
             durationMs := some env.elapsedMs })

/-! ## Task queue (firestore task queue) -/

/-- `TranslationTaskPayload`. -/
structure TaskPayload where
  collectionPath : String
  documentId : String
  targetLanguage : String
  config : CollectionConfig
  batchId : String

/-- `createTaskPayload` (firestore task handler). -/
def createTaskPayload (collectionPath documentId targetLanguage : String)
    (config : CollectionConfig) (batchId : String) : TaskPayload :=
  { collectionPath := collectionPath, documentId := documentId,
    targetLanguage := targetLanguage, config := config, batchId := batchId }

/-- Environment of one enqueue run: the generated batch id (`generateBatchId()`
draws on the clock and `Math.random`) and, per loop index, whether
`queue.enqueue` rejects and with what message. -/
structure EnqueueEnv where
  batchId : String
  enqueueThrows : Nat → Option String

/-- `EnqueueOptions` (the queue itself is the injected transport). -/
structure EnqueueOptions where
  staggerDelayMs : Option Nat := none

/-- `EnqueueResult`. -/
structure EnqueueResult where
  batchId : String
  tasksEnqueued : Nat
  failed : Nat
  errors : List String
deriving DecidableEq, Repr

/-- One call handed to the transport: the payload and the schedule delay passed to
`queue.enqueue(payload, \x7b scheduleDelaySeconds \x7d)`. -/
structure EnqueuedCall where
  payload : TaskPayload
  delaySeconds : Nat

/-- The per-language loop of `enqueueDocumentTranslation`: build the payload,
hand it to the transport with delay `Math.floor((i * staggerDelay) / 1000)`
seconds, and count the outcome; a rejection is caught, counted, and recorded —
the loop continues with the next language. -/
def enqueueLoop (env : EnqueueEnv) (collectionPath documentId : String)
    (collectionConfig : CollectionConfig) (staggerDelay : Nat) :
    List String → Nat → (Nat × Nat × List String) × List EnqueuedCall
  | [], _ => ((0, 0, []), [])
  | language :: rest, i =>
    let payload := createTaskPayload collectionPath documentId language collectionConfig
      env.batchId
    let call : EnqueuedCall := ⟨payload, i * staggerDelay / 1000⟩
    let ((t, f, errs), calls) :=
      enqueueLoop env collectionPath documentId collectionConfig staggerDelay rest (i + 1)
    match env.enqueueThrows i with
    | none => ((t + 1, f, errs), call :: calls)
    | some msg =>
      ((t, f + 1,
        ("Failed to enqueue " ++ documentId ++ "/" ++ language ++ ": " ++ msg) :: errs),
       call :: calls)

/-- `enqueueDocumentTranslation`: one batch id for the call, one task per
configured language, `staggerDelay = options.staggerDelayMs || 100` (zero is
falsy).  Returns the result and the calls handed to the transport. -/
def enqueueDocumentTranslation (env : EnqueueEnv) (collectionPath documentId : String)
    (config : MelakaConfig) (collectionConfig : CollectionConfig)
    (options : EnqueueOptions) : EnqueueResult × List EnqueuedCall :=
  let staggerDelay := match options.staggerDelayMs with
    | some n => if n = 0 then 100 else n
    | none => 100
  let ((tasksEnqueued, failed, errors), calls) :=
    enqueueLoop env collectionPath documentId collectionConfig staggerDelay
      config.languages 0
  (⟨env.batchId, tasksEnqueued, failed, errors⟩, calls)

/-! # Supporting lemmas -/

theorem pipeBind_def {α β : Type} (m : PipeM α) (k : α → PipeM β) (s : PipeState) :
    (m >>= k) s =
      (match m s with
       | (Except.ok a, s') => k a s'
       | (Except.error e, s') => (Except.error e, s')) := rfl

theorem pipePure_def {α : Type} (a : α) (s : PipeState) :
    (pure a : PipeM α) s = (Except.ok a, s) := rfl

/-- The per-language enqueue loop: tasks and failures total the language count,
with one error entry per failure, and every language is handed to the transport. -/
theorem enqueueLoop_counts (env : EnqueueEnv) (cp id : String) (ccfg : CollectionConfig)
    (d : Nat) : ∀ (langs : List String) (i : Nat),
    (enqueueLoop env cp id ccfg d langs i).1.1 +
      (enqueueLoop env cp id ccfg d langs i).1.2.1 = langs.length ∧
    (enqueueLoop env cp id ccfg d langs i).1.2.2.length =
      (enqueueLoop env cp id ccfg d langs i).1.2.1 ∧
    (enqueueLoop env cp id ccfg d langs i).2.length = langs.length := by
  intro langs
  induction langs with
  | nil => intro i; simp [enqueueLoop]
  | cons language rest ih =>
    intro i
    have h := ih (i + 1)
    rcases hres : enqueueLoop env cp id ccfg d rest (i + 1) with ⟨⟨t, f, errs⟩, calls⟩
    rw [hres] at h
    simp only at h
    simp only [enqueueLoop, hres]
    cases env.enqueueThrows i <;> simp <;> omega

/-- The calls handed to the transport by the enqueue loop, by position. -/
theorem enqueueLoop_get (env : EnqueueEnv) (cp id : String) (ccfg : CollectionConfig)
    (d : Nat) : ∀ (langs : List String) (i j : Nat),
    (enqueueLoop env cp id ccfg d langs i).2.get? j =
      (langs.get? j).map fun language =>
        ⟨createTaskPayload cp id language ccfg env.batchId, (i + j) * d / 1000⟩ := by
  intro langs
  induction langs with
  | nil => intro i j; simp [enqueueLoop]
  | cons language rest ih =>
    intro i j
    rcases hres : enqueueLoop env cp id ccfg d rest (i + 1) with ⟨⟨t, f, errs⟩, calls⟩
    simp only [enqueueLoop, hres]
    match j with
    | 0 => cases env.enqueueThrows i <;> simp
    | j' + 1 =>
      have h := ih (i + 1) j'
      rw [hres] at h
      have harith : i + 1 + j' = i + (j' + 1) := by omega
      cases env.enqueueThrows i <;> simpa [harith] using h

/-! # Claim C1 -/

/-- C1, counterexample: the claim says that for an `openai` (or `claude`)
configuration, creating the Translation Gateway and calling `translate` returns
the failure variant and "the gateway never throws across this boundary".  In the
code, `createProvider` — called from the `TranslationFacade` constructor —
THROWS `Error('OpenAI provider not yet implemented. Use Gemini for MVP.')`, so
facade creation itself raises and no uniform failure result is ever produced. -/
theorem claim1_counterexample :
    createTranslationFacade { provider := .openai, model := "gpt-4o-mini" } =
      Except.error ("OpenAI provider not yet implemented. Use Gemini for MVP.") ∧
    (createTranslationFacade { provider := .openai, model := "gpt-4o-mini" }).isOk = false :=
  ⟨rfl, rfl⟩

/-- C1, amended: for a configuration selecting the unimplemented `openai` or
`claude` provider, constructing the Translation Gateway throws an `Error` whose
message names the provider and says it is not yet implemented; `translate` is
never reached (only `gemini` yields a provider). -/
theorem createProvider_unimplemented_throws (cfg : AIConfig)
    (h : cfg.provider = AIProviderKind.openai ∨ cfg.provider = AIProviderKind.claude) :
    createTranslationFacade cfg =
      Except.error
        ((if cfg.provider = AIProviderKind.openai then "OpenAI" else "Claude") ++
          " provider not yet implemented. Use Gemini for MVP.") := by
  rcases h with h | h <;> simp [createTranslationFacade, createProvider, h]

/-- C1, witness for the amended theorem at a concrete `claude` configuration. -/
theorem createProvider_unimplemented_throws_witness :
    createTranslationFacade { provider := .claude, model := "claude-sonnet-4-20250514" } =
      Except.error ("Claude provider not yet implemented. Use Gemini for MVP.") := by
  simpa using createProvider_unimplemented_throws
    { provider := .claude, model := "claude-sonnet-4-20250514" } (Or.inr rfl)

/-! # Claim C3 -/

/-- Concrete enqueue run for the C3 counterexample: three locales,
`staggerDelayMs = 1500`, transport accepting every task. -/
def c3Run : EnqueueResult × List EnqueuedCall :=
  enqueueDocumentTranslation ⟨"batch-1", fun _ => none⟩ "products" "doc1"
    { languages := ["en-US", "ms-MY", "ja-JP"], ai := { provider := .gemini, model := "m" } }
    { path := "products" } { staggerDelayMs := some 1500 }

/-- C3, counterexample: the delays handed to the transport are computed as
`Math.floor((i * staggerDelayMs) / 1000)` seconds.  With three locales and
`staggerDelayMs = 1500` the handed delays are `0, 1, 3` — the third is not twice
the second, so the delays are not `0, Δ, 2Δ` for any interval `Δ` (and in
particular not `0, 1500, 3000` of the claimed `i × staggerInterval` form). -/
theorem claim3_counterexample :
    c3Run.2.map EnqueuedCall.delaySeconds = [0, 1, 3] ∧
    (c3Run.2.map EnqueuedCall.delaySeconds).get? 1 = some 1 ∧
    (c3Run.2.map EnqueuedCall.delaySeconds).get? 2 = some 3 ∧
    2 * 1 ≠ 3 := by
  refine ⟨rfl, rfl, rfl, by omega⟩

/-- C3, amended: every payload of one `enqueueDocumentTranslation` call carries
the single batch id generated for that call, and the task at 0-based index `i`
is handed to the transport with schedule delay `⌊i × staggerDelayMs / 1000⌋`
seconds (equal to `i × Δ` seconds exactly when `staggerDelayMs = 1000 × Δ`);
`staggerDelayMs` defaults to 100 (zero being falsy). -/
theorem enqueueDocumentTranslation_stagger (env : EnqueueEnv) (cp id : String)
    (config : MelakaConfig) (ccfg : CollectionConfig) (opts : EnqueueOptions) :
    (enqueueDocumentTranslation env cp id config ccfg opts).1.batchId = env.batchId ∧
    ∀ j : Nat,
      (enqueueDocumentTranslation env cp id config ccfg opts).2.get? j =
        (config.languages.get? j).map fun language =>
          ⟨createTaskPayload cp id language ccfg env.batchId,
           j * (match opts.staggerDelayMs with
                | some n => if n = 0 then 100 else n
                | none => 100) / 1000⟩ := by
  constructor
  · rfl
  · intro j
    have h := enqueueLoop_get env cp id ccfg
      (match opts.staggerDelayMs with
       | some n => if n = 0 then 100 else n
       | none => 100) config.languages 0 j
    simpa [enqueueDocumentTranslation] using h

/-- C3, witness for the amended theorem: with `staggerDelayMs = 2000` and three
locales, the second task (index 1) carries the shared batch id and delay 2
seconds. -/
theorem enqueueDocumentTranslation_stagger_witness :
    (enqueueDocumentTranslation ⟨"batch-w", fun _ => none⟩ "posts" "d7"
        { languages := ["ms-MY", "ja-JP", "ko-KR"], ai := { provider := .gemini, model := "m" } }
        { path := "posts" } { staggerDelayMs := some 2000 }).1.batchId = "batch-w" ∧
    (enqueueDocumentTranslation ⟨"batch-w", fun _ => none⟩ "posts" "d7"
        { languages := ["ms-MY", "ja-JP", "ko-KR"], ai := { provider := .gemini, model := "m" } }
        { path := "posts" } { staggerDelayMs := some 2000 }).2.get? 1 =
      some ⟨createTaskPayload "posts" "d7" "ja-JP" { path := "posts" } "batch-w", 2⟩ := by
  have h := enqueueDocumentTranslation_stagger ⟨"batch-w", fun _ => none⟩ "posts" "d7"
    { languages := ["ms-MY", "ja-JP", "ko-KR"], ai := { provider := .gemini, model := "m" } }
    { path := "posts" } { staggerDelayMs := some 2000 }
  exact ⟨h.1, by simpa using h.2 1⟩

/-! # Claim C10 -/

/-- C10: a transport rejection for one language neither aborts the remaining
languages nor escapes `enqueueDocumentTranslation`: every configured language is
handed to the transport, `tasksEnqueued + failed` equals the number of
configured languages, and there is exactly one error entry per failed enqueue. -/
theorem enqueueDocumentTranslation_fault_isolation (env : EnqueueEnv) (cp id : String)
    (config : MelakaConfig) (ccfg : CollectionConfig) (opts : EnqueueOptions) :
    (enqueueDocumentTranslation env cp id config ccfg opts).1.tasksEnqueued +
      (enqueueDocumentTranslation env cp id config ccfg opts).1.failed =
        config.languages.length ∧
    (enqueueDocumentTranslation env cp id config ccfg opts).1.errors.length =
      (enqueueDocumentTranslation env cp id config ccfg opts).1.failed ∧
    (enqueueDocumentTranslation env cp id config ccfg opts).2.length =
      config.languages.length := by
  have h := enqueueLoop_counts env cp id ccfg
    (match opts.staggerDelayMs with
     | some n => if n = 0 then 100 else n
     | none => 100) config.languages 0
  simpa [enqueueDocumentTranslation] using h

/-- C10, witness: with three locales and the transport rejecting the middle
enqueue, the counts balance at a concrete run. -/
theorem enqueueDocumentTranslation_fault_isolation_witness :
    (enqueueDocumentTranslation
        ⟨"b10", fun i => if i = 1 then some ("queue full") else none⟩ "products" "d9"
        { languages := ["en-US", "ms-MY", "ja-JP"], ai := { provider := .gemini, model := "m" } }
        { path := "products" } {}).1.tasksEnqueued +
      (enqueueDocumentTranslation
        ⟨"b10", fun i => if i = 1 then some ("queue full") else none⟩ "products" "d9"
        { languages := ["en-US", "ms-MY", "ja-JP"], ai := { provider := .gemini, model := "m" } }
        { path := "products" } {}).1.failed = 3 ∧
    (enqueueDocumentTranslation
        ⟨"b10", fun i => if i = 1 then some ("queue full") else none⟩ "products" "d9"
        { languages := ["en-US", "ms-MY", "ja-JP"], ai := { provider := .gemini, model := "m" } }
        { path := "products" } {}).1.errors.length =
      (enqueueDocumentTranslation
        ⟨"b10", fun i => if i = 1 then some ("queue full") else none⟩ "products" "d9"
        { languages := ["en-US", "ms-MY", "ja-JP"], ai := { provider := .gemini, model := "m" } }
        { path := "products" } {}).1.failed := by
  have h := enqueueDocumentTranslation_fault_isolation
    ⟨"b10", fun i => if i = 1 then some ("queue full") else none⟩ "products" "d9"
    { languages := ["en-US", "ms-MY", "ja-JP"], ai := { provider := .gemini, model := "m" } }
    { path := "products" } {}
  exact ⟨h.1, h.2.1⟩

/-! # Claim C6 -/

/-- C6: `isTranslationCurrent` returns true iff a record exists for the locale
whose `_melaka` metadata has status `completed` and whose stored `source_hash`
equals the expected hash; it is false when the record or metadata is absent,
when the status is `failed` or `pending`, or when the hash differs. -/
theorem isTranslationCurrent_iff (store : I18nStore) (locale sourceHash : String) :
    isTranslationCurrent store locale sourceHash = true ↔
      ∃ d m, readTranslation store locale = some d ∧ d.melaka = some m ∧
        m.status = TranslationStatus.completed ∧ m.source_hash = sourceHash := by
  unfold isTranslationCurrent readMelakaMetadata
  cases hd : readTranslation store locale with
  | none => simp
  | some d =>
    cases hm : d.melaka with
    | none => simp [hm]
    | some m => simp [hm, and_assoc]

/-- C6, witness: a concrete store with a completed record matching the hash. -/
theorem isTranslationCurrent_iff_witness :
    isTranslationCurrent
      [("ms-MY", ⟨[("title", .str "Hai")], [],
         some ⟨"h1", 5, "gemini-2.5-flash", .completed, false, none⟩⟩)]
      "ms-MY" "h1" = true := by
  exact (isTranslationCurrent_iff _ "ms-MY" "h1").mpr
    ⟨_, _, rfl, rfl, rfl, rfl⟩

/-! # Claim C7 -/

/-- C7: when the separated translatable content is empty, `processTranslation`
returns success-and-skipped and the store state and operation log are unchanged —
no store write (indeed no store interaction) happens for that document/locale. -/
theorem processTranslation_empty_skips (env : PipelineEnv)
    (docData : List (String × JsValue)) (lang : String) (config : MelakaConfig)
    (ccfg : CollectionConfig) (opts : ProcessOptions) (s : PipeState)
    (h : (separateContent docData ccfg.fields).translatable = []) :
    processTranslation env docData lang config ccfg opts s =
      (Except.ok { success := true, skipped := true, durationMs := some env.elapsedMs }, s) := by
  unfold processTranslation processTranslationBody pTryCatch
  simp [h, List.isEmpty, pipePure_def]

/-- C7, witness: a document with only a numeric field is skipped without store
interaction. -/
theorem processTranslation_empty_skips_witness :
    processTranslation
      { gemini := { fetchResult := Except.error ("net"), jsonParse := fun _ => none },
        elapsedMs := 4 }
      [("views", .num 10)] "ms-MY"
      { languages := ["ms-MY"], ai := { provider := .gemini, model := "m" } }
      { path := "products" } {} ⟨[], []⟩ =
      (Except.ok { success := true, skipped := true, durationMs := some 4 }, ⟨[], []⟩) := by
  exact processTranslation_empty_skips _ _ _ _ _ _ _ rfl

/-! # Claim C5 -/

/-- C5: `separateContent` partitions the document's fields: the reserved
`_melaka` metadata field appears in neither output map, and the combined
translatable and non-translatable entries are exactly (as a multiset, values
included) the document's other fields — no field is counted twice or dropped. -/
theorem separateContent_partition (doc : List (String × JsValue))
    (fields : Option (List String)) :
    ((separateContent doc fields).translatable ++
      (separateContent doc fields).nonTranslatable).Perm
      (doc.filter fun p => p.1 ≠ "_melaka") := by
  induction doc with
  | nil => simp [separateContent]
  | cons e rest ih =>
    obtain ⟨field, value⟩ := e
    by_cases hm : field = "_melaka"
    · simpa [separateContent, hm] using ih
    · have hfil : (((field, value) :: rest).filter fun p => p.1 ≠ "_melaka") =
          (field, value) :: (rest.filter fun p => p.1 ≠ "_melaka") := by
        simp [List.filter_cons, hm]
      rw [hfil]
      simp only [separateContent, if_neg hm]
      split
      · exact List.perm_middle.trans (ih.cons (field, value))
      · split
        · exact ih.cons (field, value)
        · exact List.perm_middle.trans (ih.cons (field, value))

/-- C5, witness: the scenario-A document partitions into its three fields with
`_melaka` excluded. -/
theorem separateContent_partition_witness :
    ((separateContent
        [("title", .str "Hello"), ("views", .num 10), ("tags", .arr [.str "a", .str "b"]),
         ("_melaka", .obj [])] none).translatable ++
      (separateContent
        [("title", .str "Hello"), ("views", .num 10), ("tags", .arr [.str "a", .str "b"]),
         ("_melaka", .obj [])] none).nonTranslatable).Perm
      ([("title", .str "Hello"), ("views", .num 10), ("tags", .arr [.str "a", .str "b"]),
        ("_melaka", .obj [])].filter fun p => p.1 ≠ "_melaka") :=
  separateContent_partition _ none

/-! # Claim C2 -/

/-- C2: `processTranslation` never raises: for every environment (hence for every
pattern of exceptions thrown by the store read, facade creation, store writes —
the internal steps that can throw), the result is an `ok` value.  Moreover,
whenever the try-block body raises `e`, the boundary catch returns
`\x7bsuccess := false, skipped := false, error := e\x7d` after a best-effort
failed-record mark (applied when the mark itself does not throw, swallowed when
it does). -/
theorem processTranslation_never_raises (env : PipelineEnv)
    (docData : List (String × JsValue)) (lang : String) (config : MelakaConfig)
    (ccfg : CollectionConfig) (opts : ProcessOptions) (s : PipeState) :
    (∃ r s', processTranslation env docData lang config ccfg opts s = (Except.ok r, s')) ∧
    (∀ e s',
      processTranslationBody env docData lang config ccfg opts s = (Except.error e, s') →
      processTranslation env docData lang config ccfg opts s =
        (Except.ok { success := false, skipped := false, error := some e,
                     durationMs := some env.elapsedMs },
         match env.markFailedThrows with
         | some _ => s'
         | none =>
           ⟨markTranslationFailed s'.store lang e (opts.timestamp.getD env.tsNow),
            s'.log ++ [.markFailed lang e (opts.timestamp.getD env.tsNow)]⟩)) := by
  constructor
  · rcases hb : processTranslationBody env docData lang config ccfg opts s with ⟨res, s'⟩
    cases res with
    | ok r => exact ⟨r, s', by simp [processTranslation, pTryCatch, hb]⟩
    | error e =>
      have hrun : processTranslation env docData lang config ccfg opts s =
          (Except.ok { success := false, skipped := false, error := some e,
                       durationMs := some env.elapsedMs },
           match env.markFailedThrows with
           | some _ => s'
           | none =>
             ⟨markTranslationFailed s'.store lang e (opts.timestamp.getD env.tsNow),
              s'.log ++ [.markFailed lang e (opts.timestamp.getD env.tsNow)]⟩) := by
        simp only [processTranslation, pTryCatch, hb, pipeBind_def, pipePure_def, markFailedOp]
        cases env.markFailedThrows <;> rfl
      exact ⟨_, _, hrun⟩
  · intro e s' hb
    simp only [processTranslation, pTryCatch, hb, pipeBind_def, pipePure_def, markFailedOp]
    cases env.markFailedThrows <;> rfl

/-- C2, witness: with a store read that rejects (`'boom'`), the pipeline returns
the ok failure result and records the best-effort failed mark. -/
theorem processTranslation_never_raises_witness :
    processTranslation
      { readMetaThrows := some ("boom"),
        gemini := { fetchResult := Except.error ("net"), jsonParse := fun _ => none },
        elapsedMs := 5, tsNow := 77 }
      [("title", .str "Hi")] "ms-MY"
      { languages := ["ms-MY"], ai := { provider := .gemini, model := "m" } }
      { path := "products" } {} ⟨[], []⟩ =
      (Except.ok { success := false, skipped := false, error := some ("boom"),
                   durationMs := some 5 },
       ⟨[("ms-MY", ⟨[], [], some ⟨"", 77, "", .failed, false, some ("boom")⟩⟩)],
        [.markFailed "ms-MY" ("boom") 77]⟩) := by
  have h := (processTranslation_never_raises
    { readMetaThrows := some ("boom"),
      gemini := { fetchResult := Except.error ("net"), jsonParse := fun _ => none },
      elapsedMs := 5, tsNow := 77 }
    [("title", .str "Hi")] "ms-MY"
    { languages := ["ms-MY"], ai := { provider := .gemini, model := "m" } }
    { path := "products" } {} ⟨[], []⟩).2 ("boom") ⟨[], []⟩ rfl
  simpa [markTranslationFailed, readTranslation, storeSet] using h

/-! # Claim C8 -/

/-- A Gemini HTTP response body whose single candidate text part is `REPLY`. -/
def c8Body : JsValue :=
  .obj [("candidates", .arr [.obj [("content",
    .obj [("parts", .arr [.obj [("text", .str "REPLY")]])])]])]

/-- Environment for the C8 counterexample: the endpoint answers 200 with `c8Body`,
and `JSON.parse` reads the reply as an object carrying the expected `title` field
plus an unrecognized `extra` field. -/
def c8Env : GeminiEnv :=
  { fetchResult :=
      Except.ok ({ ok := true, status := 200, jsonBody := Except.ok c8Body } : FetchResponse),
    elapsedMs := 9,
    jsonParse := fun s =>
      if s = "REPLY" then some (.obj [("title", .str "Bonjour"), ("extra", .str "x")])
      else none }

/-- C8, counterexample: the claim includes EXTRA fields among the validation
failures that must yield `\x7bsuccess:false\x7d` and a failed-record write.  zod's
`z.object` defaults to stripping unrecognized keys, so a reply carrying the
expected `title` plus an extra field is ACCEPTED: the Gateway returns success
with the extra field silently dropped, and the pipeline goes on to persist it —
not the claimed rejection. -/
theorem claim8_counterexample :
    geminiTranslate c8Env { apiKey := some ("k"), model := "gemini-2.5-flash" }
      [("title", .str "Hello")]
      (createTranslationSchema [("title", .str "Hello")] [("title", .string)])
      { targetLanguage := "fr-FR" } =
      { success := true, output := some [("title", .str "Bonjour")], usage := none,
        durationMs := some 9 } := rfl

/-- C8, amended: whenever the provider's reply is JSON-extractable but fails
validation against the synthesized schema because of MISSING or MISTYPED fields
(unrecognized extra fields are instead stripped and accepted), the Gateway
returns the failure variant with a schema-validation error, the pipeline
performs a metadata-only failed-record mark, and no part of the mismatched
output is persisted: the store is exactly `markTranslationFailed` of the prior
store and the log gains no write operation. -/
theorem gateway_validation_failure_rejects (env : PipelineEnv)
    (docData : List (String × JsValue)) (lang : String) (config : MelakaConfig)
    (ccfg : CollectionConfig) (opts : ProcessOptions) (s : PipeState)
    (resp : FetchResponse) (data : JsValue) (text : String) (parsed : JsValue)
    (hne : (separateContent docData ccfg.fields).translatable ≠ [])
    (hcur : opts.forceUpdate = true ∨
      (env.readMetaThrows = none ∧
        (match readMelakaMetadata s.store lang with
         | some m => m.status = TranslationStatus.completed &&
             m.source_hash = hashContent (separateContent docData ccfg.fields).translatable
         | none => false) = false))
    (hprov : (getEffectiveAIConfig config ccfg).provider = AIProviderKind.gemini)
    (hkey : geminiIsConfigured
      { apiKey := (getEffectiveAIConfig config ccfg).apiKey,
        model := (getEffectiveAIConfig config ccfg).model,
        temperature := (getEffectiveAIConfig config ccfg).temperature } = true)
    (hfetch : env.gemini.fetchResult = Except.ok resp)
    (hok : resp.ok = true)
    (hbody : resp.jsonBody = Except.ok data)
    (htext : geminiTextResponse data = some text)
    (hex : extractJsonFromResponse env.gemini.jsonParse text = some parsed)
    (hval : zodSafeParseObject
      (createTranslationSchema (separateContent docData ccfg.fields).translatable
        (separateContent docData ccfg.fields).detectedTypes) parsed = none)
    (hmf : env.markFailedThrows = none) :
    processTranslation env docData lang config ccfg opts s =
      (Except.ok { success := false, skipped := false,
                   error := some ("Schema validation failed: " ++ env.gemini.zodMessage),
                   durationMs := some env.elapsedMs },
       ⟨markTranslationFailed s.store lang
          ("Schema validation failed: " ++ env.gemini.zodMessage)
          (opts.timestamp.getD env.tsNow),
        s.log ++ (if opts.forceUpdate then [] else [StoreOp.readMeta lang]) ++
          [StoreOp.markFailed lang ("Schema validation failed: " ++ env.gemini.zodMessage)
            (opts.timestamp.getD env.tsNow)]⟩) := by
  have hne' : (separateContent docData ccfg.fields).translatable.isEmpty = false := by
    simpa [List.isEmpty_iff] using hne
  have hresp : geminiTranslate env.gemini
      { apiKey := (getEffectiveAIConfig config ccfg).apiKey,
        model := (getEffectiveAIConfig config ccfg).model,
        temperature := (getEffectiveAIConfig config ccfg).temperature }
      (separateContent docData ccfg.fields).translatable
      (createTranslationSchema (separateContent docData ccfg.fields).translatable
        (separateContent docData ccfg.fields).detectedTypes)
      { targetLanguage := lang, prompt := ccfg.prompt,
        glossary := mergeGlossaries config.glossary ccfg.glossary,
        temperature := (getEffectiveAIConfig config ccfg).temperature } =
      { success := false,
        error := some ("Schema validation failed: " ++ env.gemini.zodMessage),
        durationMs := some env.gemini.elapsedMs } := by
    simp only [geminiTranslate, hkey, hfetch, hok, hbody, htext, hex, hval]
    simp
  cases hforce : opts.forceUpdate with
  | true =>
    simp only [processTranslation, processTranslationBody, pTryCatch, pipeBind_def,
      pipePure_def, hne', hforce, liftThrow, createTranslationFacade, createProvider, hprov,
      facadeTranslate, geminiInit, hresp, markFailedOp, hmf, Bool.false_eq_true, if_false,
      if_true, eq_self_iff_true]
    simp
  | false =>
    rcases hcur with hcur | ⟨hrt, hncur⟩
    · exact absurd (hforce ▸ hcur) (by simp)
    · cases hmd : readMelakaMetadata s.store lang with
      | none =>
        simp only [processTranslation, processTranslationBody, pTryCatch, pipeBind_def,
          pipePure_def, hne', hforce, readMetaOp, hrt, hmd, liftThrow,
          createTranslationFacade, createProvider, hprov, facadeTranslate, geminiInit,
          hresp, markFailedOp, hmf, Bool.false_eq_true, if_false, if_true, eq_self_iff_true]
        simp
      | some m =>
        rw [hmd] at hncur
        simp only at hncur
        simp only [processTranslation, processTranslationBody, pTryCatch, pipeBind_def,
          pipePure_def, hne', hforce, readMetaOp, hrt, hmd, hncur, liftThrow,
          createTranslationFacade, createProvider, hprov, facadeTranslate, geminiInit,
          hresp, markFailedOp, hmf, Bool.false_eq_true, if_false, if_true, eq_self_iff_true]
        simp

/-- C8, witness for the amended theorem: the reply parses to an object missing
the required `title` field; the run fails with the schema-validation error, the
store holds only the failed mark, and no write is logged. -/
theorem gateway_validation_failure_rejects_witness :
    processTranslation
      { gemini :=
          { fetchResult :=
              Except.ok
                ({ ok := true, status := 200, jsonBody := Except.ok c8Body } : FetchResponse),
            elapsedMs := 9,
            jsonParse := fun s => if s = "REPLY" then some (.obj []) else none,
            zodMessage := "Required" },
        elapsedMs := 9, tsNow := 42 }
      [("title", .str "Hello")] "ms-MY"
      { languages := ["ms-MY"], ai := { provider := .gemini, model := "m", apiKey := some ("k") } }
      { path := "products" } {} ⟨[], []⟩ =
      (Except.ok { success := false, skipped := false,
                   error := some ("Schema validation failed: Required"),
                   durationMs := some 9 },
       ⟨[("ms-MY", ⟨[], [], some ⟨"", 42, "", .failed, false,
           some ("Schema validation failed: Required")⟩⟩)],
        [StoreOp.readMeta "ms-MY",
         StoreOp.markFailed "ms-MY" ("Schema validation failed: Required") 42]⟩) := by
  have h := gateway_validation_failure_rejects
    { gemini :=
        { fetchResult :=
            Except.ok
              ({ ok := true, status := 200, jsonBody := Except.ok c8Body } : FetchResponse),
          elapsedMs := 9,
          jsonParse := fun s => if s = "REPLY" then some (.obj []) else none,
          zodMessage := "Required" },
      elapsedMs := 9, tsNow := 42 }
    [("title", .str "Hello")] "ms-MY"
    { languages := ["ms-MY"], ai := { provider := .gemini, model := "m", apiKey := some ("k") } }
    { path := "products" } {} ⟨[], []⟩
    _ c8Body "REPLY" (.obj [])
    (List.cons_ne_nil _ _)
    (Or.inr ⟨rfl, rfl⟩)
    rfl rfl rfl rfl rfl rfl rfl rfl rfl
  simpa [markTranslationFailed, readTranslation, storeSet] using h

/-! # Claim C9 -/

theorem lookupField_isSome_iff_mem (fields : List (String × JsValue)) (k : String) :
    (lookupField fields k).isSome = true ↔ k ∈ fieldKeys fields := by
  induction fields with
  | nil => simp [lookupField, fieldKeys]
  | cons p rest ih =>
    obtain ⟨k', v⟩ := p
    by_cases h : k' = k <;> simp [lookupField, fieldKeys, h, ih]
    exact fun he => absurd he.symm h

theorem serFieldLookup_eq (ks : List String) (fields : List (String × JsValue))
    (k : String) :
    serFieldLookup ks fields k = (lookupField fields k).map (serVal ks) := by
  induction fields with
  | nil => simp [serFieldLookup, lookupField]
  | cons p rest ih =>
    obtain ⟨k', v⟩ := p
    by_cases h : k' = k <;> simp [serFieldLookup, lookupField, h, ih]

theorem serEntries_eq_filterMap (ks : List String) (keyIter : List String)
    (fields : List (String × JsValue)) :
    serEntries ks keyIter fields =
      keyIter.filterMap fun k =>
        (lookupField fields k).map fun v => quoteJson k.data ++ ':' :: serVal ks v := by
  induction keyIter with
  | nil => simp [serEntries]
  | cons k rest ih =>
    simp only [serEntries, serFieldLookup_eq, List.filterMap_cons]
    cases lookupField fields k <;> simp [ih]

theorem sortKeys_eq_of_perm {l1 l2 : List String} (h : l1.Perm l2) :
    sortKeys l1 = sortKeys l2 :=
  List.eq_of_perm_of_sorted
    (((List.perm_insertionSort _ l1).trans h).trans (List.perm_insertionSort _ l2).symm)
    (List.sorted_insertionSort _ l1) (List.sorted_insertionSort _ l2)

/-- C9: `hashContent` is invariant under the insertion order of the map's keys —
any two maps with the same key-value content (equal lookups, duplicate-free
keys) serialize identically (keys are sorted before hashing) and therefore hash
identically. -/
theorem hashContent_key_order_invariant (M1 M2 : List (String × JsValue))
    (h1 : (fieldKeys M1).Nodup) (h2 : (fieldKeys M2).Nodup)
    (hlook : ∀ k, lookupField M1 k = lookupField M2 k) :
    hashContent M1 = hashContent M2 := by
  have hmem : ∀ k, k ∈ fieldKeys M1 ↔ k ∈ fieldKeys M2 := by
    intro k
    rw [← lookupField_isSome_iff_mem, ← lookupField_isSome_iff_mem, hlook]
  have hperm : (fieldKeys M1).Perm (fieldKeys M2) :=
    (List.perm_ext_iff_of_nodup h1 h2).mpr hmem
  have hsort : sortKeys (fieldKeys M1) = sortKeys (fieldKeys M2) :=
    sortKeys_eq_of_perm hperm
  unfold hashContent normalizedContent
  rw [hsort]
  have hfm :
      List.filterMap
        (fun k => (lookupField M1 k).map
          fun v => quoteJson k.data ++ ':' :: serVal (sortKeys (fieldKeys M2)) v)
        (sortKeys (fieldKeys M2)) =
      List.filterMap
        (fun k => (lookupField M2 k).map
          fun v => quoteJson k.data ++ ':' :: serVal (sortKeys (fieldKeys M2)) v)
        (sortKeys (fieldKeys M2)) := by
    apply List.filterMap_congr
    intro k _
    rw [hlook]
  simp only [serVal, serEntries_eq_filterMap, hfm]

/-- C9, witness: the two-field map hashed in either insertion order yields the
same digest. -/
theorem hashContent_key_order_invariant_witness :
    hashContent [("a", .num 1), ("b", .num 2)] =
      hashContent [("b", .num 2), ("a", .num 1)] := by
  apply hashContent_key_order_invariant
  · decide
  · decide
  · intro k
    simp only [lookupField]
    by_cases ha : "a" = k
    · by_cases hb : "b" = k
      · exact absurd (ha.trans hb.symm) (by decide)
      · simp [ha, hb]
    · by_cases hb : "b" = k <;> simp [ha, hb]


/-! # Claim C4 -/

/-- Concrete maps for the C4 counterexample: both classify as translatable
(`detectFieldType` of a mixed array whose first element is a string is
`string[]`), and both normalize to the same serialization because the replacer
array (`["t"]`) filters the keys of the NESTED objects as well. -/
def c4M1 : List (String × JsValue) := [("t", .arr [.str "a", .obj [("x", .str "1")]])]

def c4M2 : List (String × JsValue) := [("t", .arr [.str "a", .obj [("y", .str "2")]])]

/-- C4, counterexample: two content maps that differ in content but share the
fingerprint: `JSON.stringify(content, sortedKeys)` applies the key filter at
every nesting level, so both maps serialize to the SAME string (the nested
objects serialize as empty), and the SHA-256 digests coincide. -/
theorem claim4_counterexample : hashContent c4M1 = hashContent c4M2 ∧ c4M1 ≠ c4M2 := by
  constructor
  · unfold hashContent
    have h : normalizedContent c4M1 = normalizedContent c4M2 := by
      simp [normalizedContent, sortKeys, fieldKeys, List.insertionSort, List.orderedInsert,
        serVal, serElems, serEntries, serFieldLookup, quoteJson, escString, escChar,
        joinComma, c4M1, c4M2]
    rw [h]
  · intro h
    simp [c4M1, c4M2] at h

/-! ## Injectivity of the normalized serialization on translatable-shaped maps

The amended C4 is proved by exhibiting a decoder (a recursive-descent parser for
the serializer's output grammar restricted to string and string-array values)
and a round-trip theorem: serialization followed by decoding is the identity.
Two maps with equal normalized serializations therefore have equal key-value
content. -/

/-- Values of the shapes `string` / `string[]` — the translatable shapes. -/
def strLikeVal : JsValue → Bool
  | .str _ => true
  | .arr elems => elems.all fun v => match v with | .str _ => true | _ => false
  | _ => false

/-- Value of a lower-case hex digit character. -/
def hexVal (c : Char) : Nat :=
  match c with
  | '0' => 0 | '1' => 1 | '2' => 2 | '3' => 3 | '4' => 4
  | '5' => 5 | '6' => 6 | '7' => 7 | '8' => 8 | '9' => 9
  | 'a' => 10 | 'b' => 11 | 'c' => 12 | 'd' => 13 | 'e' => 14 | 'f' => 15
  | _ => 0

theorem hexVal_hexDigitChar : ∀ n < 16, hexVal (hexDigitChar n) = n := by decide

theorem char_toNat_inj {c c' : Char} (h : c.toNat = c'.toNat) : c = c' :=
  Char.ext (UInt32.ext h)

/-- Inverse of the named single-character escapes. -/
def unescNamed (e : Char) : Char :=
  if e = 'b' then '\x08'
  else if e = 't' then '\x09'
  else if e = 'n' then '\x0a'
  else if e = 'f' then '\x0c'
  else if e = 'r' then '\x0d'
  else e

/-- Decode one escaped character from the stream. -/
def unescChar : List Char → Option (Char × List Char)
  | [] => none
  | c :: rest =>
    if c = '\\' then
      match rest with
      | [] => none
      | e :: rest2 =>
        if e = 'u' then
          match rest2 with
          | _ :: _ :: d1 :: d2 :: rest3 => some (Char.ofNat (16 * hexVal d1 + hexVal d2), rest3)
          | _ => none
        else some (unescNamed e, rest2)
    else some (c, rest)

theorem unescChar_escChar (c : Char) (r : List Char) :
    unescChar (escChar c ++ r) = some (c, r) := by
  unfold escChar
  split_ifs with h1 h2 h3 h4 h5 h6 h7 h8
  · simp [unescChar, unescNamed, h1]
  · simp [unescChar, unescNamed, h2]
  · simp [unescChar, unescNamed, h3]
  · simp [unescChar, unescNamed, h4]
  · simp [unescChar, unescNamed, h5]
  · simp [unescChar, unescNamed, h6]
  · simp [unescChar, unescNamed, h7]
  · have e1 : hexVal (hexDigitChar (c.toNat / 16)) = c.toNat / 16 :=
      hexVal_hexDigitChar _ (by omega)
    have e2 : hexVal (hexDigitChar (c.toNat % 16)) = c.toNat % 16 :=
      hexVal_hexDigitChar _ (by omega)
    simp [unescChar, e1, e2]
    have : 16 * (c.toNat / 16) + c.toNat % 16 = c.toNat := by omega
    rw [this, Char.ofNat_toNat]
  · simp [unescChar, h2]

theorem unescChar_shrink : ∀ (l : List Char) (d : Char) (r2 : List Char),
    unescChar l = some (d, r2) → r2.length < l.length := by
  intro l d r2 h
  unfold unescChar at h
  match l with
  | [] => exact absurd h (by simp)
  | c :: rest =>
    simp only at h
    split_ifs at h with hc
    · match rest with
      | [] => exact absurd h (by simp)
      | e :: rest2 =>
        simp only at h
        split_ifs at h with he
        · match rest2 with
          | [] => exact absurd h (by simp)
          | [x] => exact absurd h (by simp)
          | [x, y] => exact absurd h (by simp)
          | [x, y, z] => exact absurd h (by simp)
          | x :: y :: z :: w :: rest3 =>
            simp only [Option.some.injEq, Prod.mk.injEq] at h
            rw [← h.2]
            simp
            omega
        · simp only [Option.some.injEq, Prod.mk.injEq] at h
          rw [← h.2]
          simp
          omega
    · simp only [Option.some.injEq, Prod.mk.injEq] at h
      rw [← h.2]
      simp

theorem escChar_head_ne_quote (c : Char) : (escChar c).head? ≠ some '"' := by
  unfold escChar
  split_ifs <;> simp_all

theorem escChar_ne_nil (c : Char) : escChar c ≠ [] := by
  unfold escChar
  split_ifs <;> simp

/-- Decode the body of a quoted string (everything after the opening quote, up
to and including the closing quote). -/
def decodeBody (l : List Char) : Option (List Char × List Char) :=
  match l with
  | [] => none
  | c :: rest =>
    if c = '"' then some ([], rest)
    else
      match hu : unescChar (c :: rest) with
      | none => none
      | some (d, rest2) =>
        match decodeBody rest2 with
        | none => none
        | some (s, r) => some (d :: s, r)
termination_by l.length
decreasing_by
  exact unescChar_shrink _ _ _ hu

theorem decodeBody_round : ∀ (s : List Char) (r : List Char),
    decodeBody (escString s ++ '"' :: r) = some (s, r) := by
  intro s
  induction s with
  | nil => intro r; simp [escString, decodeBody]
  | cons c t ih =>
    intro r
    obtain ⟨hd, tl, hcd⟩ : ∃ hd tl, escChar c = hd :: tl := by
      match hch : escChar c with
      | [] => exact absurd hch (escChar_ne_nil c)
      | hd :: tl => exact ⟨hd, tl, rfl⟩
    have hhd : ¬ hd = '"' := by
      have := escChar_head_ne_quote c
      rw [hcd] at this
      simpa using this
    have hstream : escString (c :: t) ++ '"' :: r =
        hd :: (tl ++ (escString t ++ '"' :: r)) := by
      simp [escString, hcd]
    rw [hstream]
    rw [decodeBody]
    simp only [if_neg hhd]
    have hun : unescChar (hd :: (tl ++ (escString t ++ '"' :: r))) =
        some (c, escString t ++ '"' :: r) := by
      have := unescChar_escChar c (escString t ++ '"' :: r)
      rw [hcd] at this
      simpa using this
    rw [hun]
    simp [ih r]

theorem decodeBody_shrink : ∀ (n : Nat) (l : List Char), l.length ≤ n →
    ∀ s r, decodeBody l = some (s, r) → r.length < l.length := by
  intro n
  induction n with
  | zero =>
    intro l hl s r h
    match l with
    | [] => exact absurd h (by simp [decodeBody])
    | c :: rest => simp at hl
  | succ n ih =>
    intro l hl s r h
    match l with
    | [] => exact absurd h (by simp [decodeBody])
    | c :: rest =>
      rw [decodeBody] at h
      split_ifs at h with hc
      · simp only [Option.some.injEq, Prod.mk.injEq] at h
        simp [← h.2]
      · revert h
        split
        · simp
        · next d rest2 hu =>
          split
          · simp
          · next s2 r2 hb =>
            intro h
            simp only [Option.some.injEq, Prod.mk.injEq] at h
            have h1 := unescChar_shrink _ _ _ hu
            have h2 := ih rest2 (by simp at h1 hl ⊢; omega) s2 r2 hb
            rw [← h.2]
            simp at h1 ⊢
            omega

/-- Decode a comma-separated run of quoted strings terminated by `]`. -/
def decodeElems (l : List Char) : Option (List JsValue × List Char) :=
  match l with
  | [] => none
  | c :: rest =>
    if c = '"' then
      match hb : decodeBody rest with
      | none => none
      | some (s, r1) =>
        match r1 with
        | [] => none
        | sep :: r2 =>
          if sep = ',' then
            match decodeElems r2 with
            | none => none
            | some (vs, r3) => some (.str (String.mk s) :: vs, r3)
          else if sep = ']' then some ([.str (String.mk s)], r2)
          else none
    else none
termination_by l.length
decreasing_by
  have h1 := decodeBody_shrink _ _ (le_refl _) _ _ hb
  simp at h1 ⊢
  omega

theorem decodeElems_round : ∀ (elems : List JsValue) (ks : List String) (r : List Char),
    elems ≠ [] → (∀ v ∈ elems, ∃ s, v = JsValue.str s) →
    decodeElems (joinComma (serElems ks elems) ++ ']' :: r) = some (elems, r) := by
  intro elems
  induction elems with
  | nil => intro ks r hne; exact absurd rfl hne
  | cons v rest ih =>
    intro ks r _ hstr
    obtain ⟨s, hv⟩ := hstr v (by simp)
    subst hv
    match rest with
    | [] =>
      have hstream : joinComma (serElems ks [JsValue.str s]) ++ ']' :: r =
          '"' :: (escString s.data ++ '"' :: (']' :: r)) := by
        simp [serElems, joinComma, serVal, quoteJson]
      rw [hstream, decodeElems, if_pos rfl]
      split
      · next heq =>
        rw [decodeBody_round s.data (']' :: r)] at heq
        exact absurd heq (by simp)
      · next s1 r1 heq =>
        rw [decodeBody_round s.data (']' :: r)] at heq
        simp only [Option.some.injEq, Prod.mk.injEq] at heq
        obtain ⟨hs, hr⟩ := heq
        subst hs
        subst hr
        simp
    | v2 :: rest2 =>
      have hstream : joinComma (serElems ks (JsValue.str s :: v2 :: rest2)) ++ ']' :: r =
          '"' :: (escString s.data ++ '"' ::
            (',' :: (joinComma (serElems ks (v2 :: rest2)) ++ ']' :: r))) := by
        simp [serElems, joinComma, serVal, quoteJson]
      rw [hstream, decodeElems, if_pos rfl]
      split
      · next heq =>
        rw [decodeBody_round s.data
          (',' :: (joinComma (serElems ks (v2 :: rest2)) ++ ']' :: r))] at heq
        exact absurd heq (by simp)
      · next s1 r1 heq =>
        rw [decodeBody_round s.data
          (',' :: (joinComma (serElems ks (v2 :: rest2)) ++ ']' :: r))] at heq
        simp only [Option.some.injEq, Prod.mk.injEq] at heq
        obtain ⟨hs, hr⟩ := heq
        subst hs
        subst hr
        simp [ih ks r (by simp) (fun v hv => hstr v (by simp [hv]))]

theorem decodeElems_shrink : ∀ (n : Nat) (l : List Char), l.length ≤ n →
    ∀ vs r, decodeElems l = some (vs, r) → r.length < l.length := by
  intro n
  induction n with
  | zero =>
    intro l hl vs r h
    match l with
    | [] => exact absurd h (by simp [decodeElems])
    | c :: rest => simp at hl
  | succ n ih =>
    intro l hl vs r h
    match l with
    | [] => exact absurd h (by simp [decodeElems])
    | c :: rest =>
      rw [decodeElems] at h
      split_ifs at h with hc
      · split at h
        · exact absurd h (by simp)
        · next s r1 hb =>
          have h1 := decodeBody_shrink rest.length rest (le_refl _) _ _ hb
          split at h
          · exact absurd h (by simp)
          · next sep r2 =>
            split_ifs at h with hsep hsep2
            · split at h
              · exact absurd h (by simp)
              · next vs2 r3 he =>
                simp only [Option.some.injEq, Prod.mk.injEq] at h
                have h2 := ih r2 (by simp at h1 hl ⊢; omega) vs2 r3 he
                rw [← h.2]
                simp at h1 ⊢
                omega
            · simp only [Option.some.injEq, Prod.mk.injEq] at h
              rw [← h.2]
              simp at h1 ⊢
              omega

/-- Decode a string or string-array value. -/
def decodeValue (l : List Char) : Option (JsValue × List Char) :=
  match l with
  | [] => none
  | c :: rest =>
    if c = '"' then
      (decodeBody rest).map fun p => (.str (String.mk p.1), p.2)
    else if c = '[' then
      match rest with
      | [] => none
      | c2 :: rest2 =>
        if c2 = ']' then some (.arr [], rest2)
        else (decodeElems (c2 :: rest2)).map fun p => (.arr p.1, p.2)
    else none

theorem strLike_serVal_head (v : JsValue) (hv : strLikeVal v = true) :
    (∃ s, v = JsValue.str s) ∨ (∃ elems, v = JsValue.arr elems) := by
  match v with
  | .str s => exact Or.inl ⟨s, rfl⟩
  | .arr elems => exact Or.inr ⟨elems, rfl⟩
  | .null | .bool _ | .num _ | .obj _ => simp [strLikeVal] at hv

theorem decodeValue_round : ∀ (v : JsValue) (ks : List String) (r : List Char),
    strLikeVal v = true →
    decodeValue (serVal ks v ++ r) = some (v, r) := by
  intro v ks r hv
  rcases strLike_serVal_head v hv with ⟨s, rfl⟩ | ⟨elems, rfl⟩
  · have hstream : serVal ks (JsValue.str s) ++ r =
        '"' :: (escString s.data ++ '"' :: r) := by
      simp [serVal, quoteJson]
    rw [hstream]
    simp only [decodeValue]
    rw [decodeBody_round]
    simp
  · match elems with
    | [] =>
      have hstream : serVal ks (JsValue.arr []) ++ r = '[' :: ']' :: r := by
        simp [serVal, serElems, joinComma]
      rw [hstream]
      simp [decodeValue]
    | v1 :: rest =>
      have hstr : ∀ w ∈ v1 :: rest, ∃ s, w = JsValue.str s := by
        intro w hw
        have hall := hv
        simp only [strLikeVal, List.all_eq_true] at hall
        have hw2 := hall w hw
        match w with
        | .str s => exact ⟨s, rfl⟩
        | .null | .bool _ | .num _ | .arr _ | .obj _ => simp at hw2
      obtain ⟨s1, hv1⟩ := hstr v1 (by simp)
      have hstream : serVal ks (JsValue.arr (v1 :: rest)) ++ r =
          '[' :: (joinComma (serElems ks (v1 :: rest)) ++ ']' :: r) := by
        simp [serVal]
      obtain ⟨X, hX⟩ : ∃ X, joinComma (serElems ks (v1 :: rest)) ++ ']' :: r = '"' :: X := by
        subst hv1
        match rest with
        | [] =>
          refine ⟨escString s1.data ++ '"' :: (']' :: r), ?_⟩
          simp [serElems, joinComma, serVal, quoteJson]
        | w :: ws =>
          refine ⟨escString s1.data ++ '"' ::
            (',' :: (joinComma (serElems ks (w :: ws)) ++ ']' :: r)), ?_⟩
          simp [serElems, joinComma, serVal, quoteJson]
      rw [hstream, hX]
      simp only [decodeValue]
      rw [← hX, decodeElems_round (v1 :: rest) ks r (by simp) hstr]
      simp

theorem decodeValue_shrink : ∀ (l : List Char) (v : JsValue) (r : List Char),
    decodeValue l = some (v, r) → r.length < l.length := by
  intro l v r h
  match l with
  | [] => exact absurd h (by simp [decodeValue])
  | c :: rest =>
    simp only [decodeValue] at h
    split_ifs at h with hc hbr
    · cases hb : decodeBody rest with
      | none => rw [hb] at h; simp at h
      | some p =>
        rw [hb] at h
        have hs := decodeBody_shrink rest.length rest (le_refl _) p.1 p.2 hb
        simp only [Option.map_some', Option.some.injEq, Prod.mk.injEq] at h
        rw [← h.2]
        simp only [List.length_cons]
        omega
    · split at h
      · exact absurd h (by simp)
      · next c2 rest2 =>
        split_ifs at h with hc2
        · simp only [Option.some.injEq, Prod.mk.injEq] at h
          rw [← h.2]
          simp
          omega
        · cases he : decodeElems (c2 :: rest2) with
          | none => rw [he] at h; simp at h
          | some p =>
            rw [he] at h
            have hs := decodeElems_shrink (c2 :: rest2).length (c2 :: rest2) (le_refl _)
              p.1 p.2 he
            simp only [Option.map_some', Option.some.injEq, Prod.mk.injEq] at h
            rw [← h.2]
            simp only [List.length_cons] at hs ⊢
            omega

mutual

/-- Decode one `"key":value` entry whose key and value have been consumed:
continue after the value, expecting a comma (more entries) or the closing
brace. -/
def decodeEntriesAfterVal (kd : List Char) (v : JsValue) (l : List Char) :
    Option (List (String × JsValue) × List Char) :=
  match l with
  | [] => none
  | c3 :: r4 =>
    if c3 = ',' then
      match decodeEntries r4 with
      | none => none
      | some (es, r5) => some ((String.mk kd, v) :: es, r5)
    else if c3 = '\x7d' then some ([(String.mk kd, v)], r4)
    else none
termination_by l.length
decreasing_by
  simp only [List.length_cons]
  omega

def decodeEntriesAfterKey (kd : List Char) (l : List Char) :
    Option (List (String × JsValue) × List Char) :=
  match l with
  | [] => none
  | c2 :: r2 =>
    if c2 = ':' then
      match hv : decodeValue r2 with
      | none => none
      | some (v, r3) => decodeEntriesAfterVal kd v r3
    else none
termination_by l.length
decreasing_by
  have h2 := decodeValue_shrink _ _ _ hv
  simp only [List.length_cons]
  omega

def decodeEntries (l : List Char) : Option (List (String × JsValue) × List Char) :=
  match l with
  | [] => none
  | c :: rest =>
    if c = '"' then
      match hb : decodeBody rest with
      | none => none
      | some (k, r1) => decodeEntriesAfterKey k r1
    else none
termination_by l.length
decreasing_by
  have h1 := decodeBody_shrink _ _ (le_refl _) _ _ hb
  simp only [List.length_cons]
  omega

end

theorem decodeEntries_round : ∀ (ps : List (String × JsValue)) (ks : List String)
    (r : List Char), ps ≠ [] → (∀ p ∈ ps, strLikeVal p.2 = true) →
    decodeEntries
      (joinComma (ps.map fun p => quoteJson p.1.data ++ ':' :: serVal ks p.2) ++ '\x7d' :: r) =
      some (ps, r) := by
  intro ps
  induction ps with
  | nil => intro ks r hne; exact absurd rfl hne
  | cons p rest ih =>
    obtain ⟨k, v⟩ := p
    intro ks r _ hstr
    have hvv : strLikeVal v = true := hstr (k, v) (by simp)
    match rest with
    | [] =>
      have hstream :
          joinComma ([(k, v)].map fun p => quoteJson p.1.data ++ ':' :: serVal ks p.2) ++
            '\x7d' :: r =
          '"' :: (escString k.data ++ '"' :: (':' :: (serVal ks v ++ '\x7d' :: r))) := by
        simp [joinComma, quoteJson]
      rw [hstream, decodeEntries, if_pos rfl]
      split
      · next heq =>
        rw [decodeBody_round k.data (':' :: (serVal ks v ++ '\x7d' :: r))] at heq
        exact absurd heq (by simp)
      · next k1 r1 heq =>
        rw [decodeBody_round k.data (':' :: (serVal ks v ++ '\x7d' :: r))] at heq
        simp only [Option.some.injEq, Prod.mk.injEq] at heq
        obtain ⟨hk, hr⟩ := heq
        subst hk
        subst hr
        rw [decodeEntriesAfterKey, if_pos rfl]
        split
        · next heq2 =>
          rw [decodeValue_round v ks ('\x7d' :: r) hvv] at heq2
          exact absurd heq2 (by simp)
        · next v1 r3 heq2 =>
          rw [decodeValue_round v ks ('\x7d' :: r) hvv] at heq2
          simp only [Option.some.injEq, Prod.mk.injEq] at heq2
          obtain ⟨hv1, hr3⟩ := heq2
          subst hv1
          subst hr3
          rw [decodeEntriesAfterVal, if_neg (by decide), if_pos rfl]
    | p2 :: rest2 =>
      have hstream :
          joinComma (((k, v) :: p2 :: rest2).map fun p =>
            quoteJson p.1.data ++ ':' :: serVal ks p.2) ++ '\x7d' :: r =
          '"' :: (escString k.data ++ '"' :: (':' :: (serVal ks v ++ ',' ::
            (joinComma ((p2 :: rest2).map fun p =>
              quoteJson p.1.data ++ ':' :: serVal ks p.2) ++ '\x7d' :: r)))) := by
        simp [joinComma, quoteJson]
      rw [hstream, decodeEntries, if_pos rfl]
      split
      · next heq =>
        rw [decodeBody_round k.data] at heq
        exact absurd heq (by simp)
      · next k1 r1 heq =>
        rw [decodeBody_round k.data] at heq
        simp only [Option.some.injEq, Prod.mk.injEq] at heq
        obtain ⟨hk, hr⟩ := heq
        subst hk
        subst hr
        rw [decodeEntriesAfterKey, if_pos rfl]
        split
        · next heq2 =>
          rw [decodeValue_round v ks _ hvv] at heq2
          exact absurd heq2 (by simp)
        · next v1 r3 heq2 =>
          rw [decodeValue_round v ks _ hvv] at heq2
          simp only [Option.some.injEq, Prod.mk.injEq] at heq2
          obtain ⟨hv1, hr3⟩ := heq2
          subst hv1
          subst hr3
          rw [decodeEntriesAfterVal, if_pos rfl]
          rw [ih ks r (by simp) (fun q hq => hstr q (by simp [hq]))]

/-- Decode a serialized object. -/
def decodeObj (l : List Char) : Option (List (String × JsValue) × List Char) :=
  match l with
  | [] => none
  | c :: rest =>
    if c = '\x7b' then
      match rest with
      | [] => none
      | c2 :: rest2 =>
        if c2 = '\x7d' then some ([], rest2)
        else decodeEntries rest
    else none

/-- The entry list actually serialized for a map: the sorted keys paired with
their looked-up values. -/
def psOf (M : List (String × JsValue)) : List (String × JsValue) :=
  (sortKeys (fieldKeys M)).filterMap fun k => (lookupField M k).map fun v => (k, v)

theorem lookupField_mem : ∀ (M : List (String × JsValue)) (k : String) (v : JsValue),
    lookupField M k = some v → (k, v) ∈ M := by
  intro M k v h
  induction M with
  | nil => simp [lookupField] at h
  | cons p rest ih =>
    obtain ⟨k', v'⟩ := p
    by_cases hk : k' = k
    · simp only [lookupField, if_pos hk] at h
      simp only [Option.some.injEq] at h
      subst hk
      rw [h]
      simp
    · simp only [lookupField, if_neg hk] at h
      exact List.mem_cons_of_mem _ (ih h)

theorem serEntries_eq_map_psOf (ks : List String) (M : List (String × JsValue)) :
    serEntries ks (sortKeys (fieldKeys M)) M =
      (psOf M).map fun p => quoteJson p.1.data ++ ':' :: serVal ks p.2 := by
  rw [serEntries_eq_filterMap, psOf, List.map_filterMap]
  apply List.filterMap_congr
  intro k _
  cases lookupField M k <;> simp

theorem decodeObj_normalized (M : List (String × JsValue))
    (hv : ∀ p ∈ M, strLikeVal p.2 = true) :
    decodeObj (normalizedContent M) = some (psOf M, []) := by
  match hM : M with
  | [] =>
    simp [normalizedContent, serVal, serEntries, sortKeys, fieldKeys,
      List.insertionSort, joinComma, decodeObj, psOf]
  | q :: M' =>
    have hkey : q.1 ∈ sortKeys (fieldKeys (q :: M')) := by
      have : q.1 ∈ fieldKeys (q :: M') := by simp [fieldKeys]
      simpa [sortKeys, List.perm_insertionSort _ (fieldKeys (q :: M')) |>.mem_iff] using this
    have hlk : ∃ v, lookupField (q :: M') q.1 = some v := by
      obtain ⟨k', v'⟩ := q
      exact ⟨v', by simp [lookupField]⟩
    obtain ⟨v0, hv0⟩ := hlk
    have hps : (q.1, v0) ∈ psOf (q :: M') := by
      rw [psOf]
      apply List.mem_filterMap.mpr
      exact ⟨q.1, hkey, by rw [hv0]; rfl⟩
    have hpsne : psOf (q :: M') ≠ [] := List.ne_nil_of_mem hps
    have hpstr : ∀ p ∈ psOf (q :: M'), strLikeVal p.2 = true := by
      intro p hp
      rw [psOf] at hp
      obtain ⟨k, hk, hlkp⟩ := List.mem_filterMap.mp hp
      cases hlku : lookupField (q :: M') k with
      | none => rw [hlku] at hlkp; simp at hlkp
      | some v =>
        rw [hlku] at hlkp
        simp only [Option.map_some', Option.some.injEq] at hlkp
        rw [← hlkp]
        exact hv (k, v) (lookupField_mem _ _ _ hlku)
    have hnc : normalizedContent (q :: M') =
        '\x7b' :: (joinComma ((psOf (q :: M')).map fun p =>
          quoteJson p.1.data ++ ':' :: serVal (sortKeys (fieldKeys (q :: M'))) p.2) ++
          '\x7d' :: []) := by
      rw [normalizedContent]
      rw [show serVal (sortKeys (fieldKeys (q :: M'))) (JsValue.obj (q :: M')) =
        '\x7b' :: (joinComma (serEntries (sortKeys (fieldKeys (q :: M')))
          (sortKeys (fieldKeys (q :: M'))) (q :: M')) ++ ['\x7d']) from by rw [serVal]]
      rw [serEntries_eq_map_psOf]
    obtain ⟨X, hX⟩ : ∃ X, joinComma ((psOf (q :: M')).map fun p =>
        quoteJson p.1.data ++ ':' :: serVal (sortKeys (fieldKeys (q :: M'))) p.2) ++
        '\x7d' :: [] = '"' :: X := by
      match hps2 : psOf (q :: M') with
      | [] => exact absurd hps2 hpsne
      | e :: es =>
        match es with
        | [] =>
          refine ⟨escString e.1.data ++ '"' ::
            (':' :: (serVal (sortKeys (fieldKeys (q :: M'))) e.2 ++ '\x7d' :: [])), ?_⟩
          simp [joinComma, quoteJson]
        | e2 :: es2 =>
          refine ⟨escString e.1.data ++ '"' ::
            (':' :: (serVal (sortKeys (fieldKeys (q :: M'))) e.2 ++ ',' ::
              (joinComma ((e2 :: es2).map fun p => quoteJson p.1.data ++ ':' ::
                serVal (sortKeys (fieldKeys (q :: M'))) p.2) ++ '\x7d' :: []))), ?_⟩
          simp [joinComma, quoteJson]
    rw [hnc, hX, decodeObj]
    have hob : ¬ ('"' : Char) = '\x7d' := by decide
    rw [if_pos rfl]
    simp only [if_neg hob]
    rw [← hX]
    exact decodeEntries_round (psOf (q :: M')) (sortKeys (fieldKeys (q :: M'))) [] hpsne hpstr

/-- C4, amended: restricted to maps whose values have the translatable shapes
actually fingerprinted (strings and arrays of strings, no nested objects), the
normalized serialization is injective: equal serialized bytes (hence equal
fingerprints by construction) force equal key-value content.  With nested
objects in values this fails (see the counterexample). -/
theorem normalizedContent_injective_translatable (M1 M2 : List (String × JsValue))
    (hv1 : ∀ p ∈ M1, strLikeVal p.2 = true) (hv2 : ∀ p ∈ M2, strLikeVal p.2 = true)
    (heq : normalizedContent M1 = normalizedContent M2) :
    ∀ k, lookupField M1 k = lookupField M2 k := by
  have e1 := decodeObj_normalized M1 hv1
  have e2 := decodeObj_normalized M2 hv2
  rw [heq] at e1
  rw [e2] at e1
  simp only [Option.some.injEq, Prod.mk.injEq] at e1
  have hps : psOf M2 = psOf M1 := e1.1
  have hdir : ∀ (A B : List (String × JsValue)), psOf A = psOf B →
      ∀ k v, lookupField A k = some v → lookupField B k = some v := by
    intro A B hAB k v hlk
    have hkA : k ∈ fieldKeys A := by
      rw [← lookupField_isSome_iff_mem]
      rw [hlk]
      rfl
    have hkK : k ∈ sortKeys (fieldKeys A) := by
      simpa [sortKeys, List.perm_insertionSort _ (fieldKeys A) |>.mem_iff] using hkA
    have hmem : (k, v) ∈ psOf A := by
      rw [psOf]
      apply List.mem_filterMap.mpr
      exact ⟨k, hkK, by rw [hlk]; rfl⟩
    rw [hAB] at hmem
    rw [psOf] at hmem
    obtain ⟨k', _, hk'⟩ := List.mem_filterMap.mp hmem
    cases hlku : lookupField B k' with
    | none => rw [hlku] at hk'; simp at hk'
    | some v' =>
      rw [hlku] at hk'
      simp only [Option.map_some', Option.some.injEq, Prod.mk.injEq] at hk'
      obtain ⟨hkk, hvv⟩ := hk'
      rw [← hkk, hlku, hvv]
  intro k
  cases hlk1 : lookupField M1 k with
  | some v => exact (hdir M1 M2 hps.symm k v hlk1).symm
  | none =>
    cases hlk2 : lookupField M2 k with
    | none => rfl
    | some v =>
      have := hdir M2 M1 hps k v hlk2
      rw [hlk1] at this
      exact absurd this (by simp)


theorem normalizedContent_injective_translatable_witness :
    lookupField [("a", JsValue.str "x"), ("b", JsValue.str "y")] ("a") =
      lookupField [("b", JsValue.str "y"), ("a", JsValue.str "x")] ("a") :=
  normalizedContent_injective_translatable
    [("a", JsValue.str "x"), ("b", JsValue.str "y")]
    [("b", JsValue.str "y"), ("a", JsValue.str "x")]
    (by decide) (by decide)
    (by
      simp [normalizedContent, sortKeys, fieldKeys, List.insertionSort,
        List.orderedInsert, serVal, serEntries, serElems, serFieldLookup,
        quoteJson, escString, escChar, joinComma,
        (show (['a'] : List Char) ≤ ['b'] by decide),
        (show ¬ ((['b'] : List Char) ≤ ['a']) by decide)])
    ("a")

end Melaka
